import Mathlib

/-!
Verification of the data-management core of the `nl2sql` backend
(`backend/app/data_manager.py`), shallowly embedded in Lean 4.

Python strings are modelled as `List Char` (`PyStr`).  Pure helper
functions of `DataManager` (`_sanitize_sql_identifier`,
`_generate_unique_table_name`, `_infer_column_type`,
`_safe_json_loads`, `_build_default_sample_questions`, ...) are
translated into executable Lean functions; the stateful operations
(`import_uploaded_file`, `delete_table`, `_scan_database_tables`,
`get_table_info`, and the metadata-registry reads/writes) are modelled
as functions on an explicit `DMState` record, with an environment
record injecting the outcomes of the external, fallible steps
(file parsing, the LLM oracle call, physical writes, registry I/O).

External library calls that the source delegates to (Python `float`,
`pandas.to_datetime`, `json.loads`) are modelled either as function
parameters or as executable models noted in their doc comments.
-/

/-- A Python string, modelled as its list of characters. -/
abbrev PyStr := List Char

namespace NL2SQL

/-! ## Character classes (ASCII, as in the regexes of the source) -/

/-- Characters matched by the regex class `[a-zA-Z0-9_]` used in
`_sanitize_sql_identifier` (data_manager.py:412). -/
def pyWordChar (c : Char) : Bool :=
  (97 ≤ c.toNat && c.toNat ≤ 122) || (65 ≤ c.toNat && c.toNat ≤ 90) ||
    (48 ≤ c.toNat && c.toNat ≤ 57) || c.toNat == 95

/-- Characters matched by `[a-z0-9_]`. -/
def lowerWordChar (c : Char) : Bool :=
  (97 ≤ c.toNat && c.toNat ≤ 122) || (48 ≤ c.toNat && c.toNat ≤ 57) || c.toNat == 95

/-- Characters matched by `[a-z]`. -/
def lowerAlphaChar (c : Char) : Bool :=
  97 ≤ c.toNat && c.toNat ≤ 122

/-- Characters matched by `[0-9]`. -/
def asciiDigitChar (c : Char) : Bool :=
  48 ≤ c.toNat && c.toNat ≤ 57

/-- ASCII lower-casing of a single character, as `str.lower()` acts on
the ASCII-only strings produced by the sanitizer's regex substitution. -/
def pyLowerChar (c : Char) : Char :=
  if 65 ≤ c.toNat && c.toNat ≤ 90 then Char.ofNat (c.toNat + 32) else c

theorem char_toNat_ofNat (n : Nat) (h : n < 0xd800) : (Char.ofNat n).toNat = n := by
  have hv : Nat.isValidChar n := Or.inl h
  simp only [Char.ofNat, hv, dif_pos, Char.ofNatAux, Char.toNat, UInt32.toNat]
  rfl

theorem pyLowerChar_toNat_of_upper {c : Char} (h : 65 ≤ c.toNat ∧ c.toNat ≤ 90) :
    (pyLowerChar c).toNat = c.toNat + 32 := by
  unfold pyLowerChar
  rw [if_pos (by simp [h.1, h.2])]
  exact char_toNat_ofNat _ (by omega)

theorem pyLowerChar_eq_self_of_not_upper {c : Char} (h : ¬(65 ≤ c.toNat ∧ c.toNat ≤ 90)) :
    pyLowerChar c = c := by
  unfold pyLowerChar
  rw [if_neg]
  intro hb
  simp only [Bool.and_eq_true, decide_eq_true_eq] at hb
  exact h hb

theorem lowerWordChar_pyLowerChar {c : Char} (h : pyWordChar c = true) :
    lowerWordChar (pyLowerChar c) = true := by
  simp only [pyWordChar, Bool.or_eq_true, Bool.and_eq_true, decide_eq_true_eq,
    beq_iff_eq] at h
  by_cases hu : 65 ≤ c.toNat ∧ c.toNat ≤ 90
  · have := pyLowerChar_toNat_of_upper hu
    simp only [lowerWordChar, this, Bool.or_eq_true, Bool.and_eq_true, decide_eq_true_eq]
    omega
  · rw [pyLowerChar_eq_self_of_not_upper hu]
    simp only [lowerWordChar, Bool.or_eq_true, Bool.and_eq_true, decide_eq_true_eq, beq_iff_eq]
    omega

theorem pyLowerChar_eq_self_of_lowerWord {c : Char} (h : lowerWordChar c = true) :
    pyLowerChar c = c := by
  simp only [lowerWordChar, Bool.or_eq_true, Bool.and_eq_true, decide_eq_true_eq,
    beq_iff_eq] at h
  exact pyLowerChar_eq_self_of_not_upper (by omega)

theorem pyLowerChar_ne_underscore {c : Char} (h : c.toNat ≠ 95) :
    (pyLowerChar c).toNat ≠ 95 := by
  by_cases hu : 65 ≤ c.toNat ∧ c.toNat ≤ 90
  · rw [pyLowerChar_toNat_of_upper hu]; omega
  · rw [pyLowerChar_eq_self_of_not_upper hu]; exact h

/-! ## The identifier sanitizer

`DataManager._sanitize_sql_identifier` (data_manager.py:409-417):

    normalized = re.sub(r"[^a-zA-Z0-9_]+", "_", str(value)).strip("_").lower()
    if not normalized: normalized = fallback
    if re.match(r"^[0-9]", normalized): normalized = f"{prefix}_{normalized}"
    return normalized
-/

/-- `re.sub(r"[^a-zA-Z0-9_]+", "_", s)`: replace each maximal run of
non-word characters with a single underscore.  The Boolean argument
records whether we are currently inside such a run. -/
def subNonWordAux : Bool → PyStr → PyStr
  | _, [] => []
  | inRun, c :: cs =>
    if pyWordChar c then c :: subNonWordAux false cs
    else if inRun then subNonWordAux true cs
    else '_' :: subNonWordAux true cs

def subNonWord (s : PyStr) : PyStr := subNonWordAux false s

/-- `s.strip("_")`: remove leading and trailing underscores. -/
def stripUnderscores (s : PyStr) : PyStr :=
  ((s.dropWhile (fun c => c.toNat == 95)).reverse.dropWhile (fun c => c.toNat == 95)).reverse

/-- `s.lower()` (ASCII). -/
def pyLower (s : PyStr) : PyStr := s.map pyLowerChar

/-- `re.match(r"^[0-9]", s)` is truthy. -/
def startsWithDigit : PyStr → Bool
  | [] => false
  | c :: _ => asciiDigitChar c

/-- `DataManager._sanitize_sql_identifier(value, fallback, prefix)`
(data_manager.py:409-417).  The third argument is the `prefix`
parameter of the source (renamed `pre` here). -/
def sanitizeSqlIdentifier (value fallback pre : PyStr) : PyStr :=
  let normalized := pyLower (stripUnderscores (subNonWord value))
  let normalized := if normalized.isEmpty then fallback else normalized
  if startsWithDigit normalized then pre ++ '_' :: normalized else normalized

/-- The regex `^[a-z_][a-z0-9_]*$` from the spec's testable property. -/
def matchesIdentPattern : PyStr → Bool
  | [] => false
  | c :: cs => (lowerAlphaChar c || c.toNat == 95) && cs.all lowerWordChar

/-- A fallback/prefix argument that is itself a well-formed lower-case
identifier with no edge underscore.  All arguments the repository
passes (`"col"`, `"col_<i>"`, `"uploaded"`, `"uploaded_table"`)
satisfy this. -/
def goodIdent (s : PyStr) : Bool :=
  (match s with
   | [] => false
   | c :: _ => lowerAlphaChar c) &&
  s.all lowerWordChar && s.getLast?.all (fun d => d.toNat != 95)

/-! ### Structural lemmas about the sanitizer -/

theorem mem_subNonWordAux {c : Char} : ∀ (b : Bool) (s : PyStr),
    c ∈ subNonWordAux b s → pyWordChar c = true := by
  intro b s
  induction s generalizing b with
  | nil => intro h; simp [subNonWordAux] at h
  | cons d ds ih =>
    intro h
    simp only [subNonWordAux] at h
    by_cases hw : pyWordChar d
    · rw [if_pos hw] at h
      rcases List.mem_cons.mp h with h | h
      · exact h ▸ hw
      · exact ih false h
    · rw [if_neg hw] at h
      cases b with
      | true => exact ih true (by simpa using h)
      | false =>
        rcases List.mem_cons.mp (by simpa using h) with h | h
        · subst h; decide
        · exact ih true h

theorem subNonWordAux_eq_self {s : PyStr} (h : ∀ c ∈ s, pyWordChar c = true) :
    ∀ b, subNonWordAux b s = s := by
  induction s with
  | nil => intro b; rfl
  | cons d ds ih =>
    intro b
    have hd : pyWordChar d = true := h d (List.mem_cons_self ..)
    simp only [subNonWordAux, if_pos hd]
    exact congrArg (d :: ·) (ih (fun c hc => h c (List.mem_cons_of_mem _ hc)) false)

theorem dropWhile_eq_self_of_head {p : Char → Bool} {s : PyStr}
    (h : ∀ c, s.head? = some c → p c = false) : s.dropWhile p = s := by
  cases s with
  | nil => rfl
  | cons c cs => simp [List.dropWhile, h c rfl]

theorem head?_dropWhile {p : Char → Bool} {s : PyStr} {c : Char}
    (h : (s.dropWhile p).head? = some c) : p c = false := by
  induction s with
  | nil => simp [List.dropWhile] at h
  | cons d ds ih =>
    rw [List.dropWhile_cons] at h
    by_cases hd : p d
    · rw [if_pos hd] at h; exact ih h
    · rw [if_neg hd] at h
      simp only [List.head?_cons, Option.some.injEq] at h
      subst h
      exact Bool.eq_false_iff.mpr hd

theorem mem_stripUnderscores {c : Char} {s : PyStr} (h : c ∈ stripUnderscores s) : c ∈ s := by
  unfold stripUnderscores at h
  rw [List.mem_reverse] at h
  have h1 := (List.dropWhile_sublist _).subset h
  rw [List.mem_reverse] at h1
  exact (List.dropWhile_sublist _).subset h1

theorem getLast?_of_suffix {u v : PyStr} {c : Char} (hs : u <:+ v)
    (h : u.getLast? = some c) : v.getLast? = some c := by
  obtain ⟨w, rfl⟩ := hs
  rw [List.getLast?_append, h, Option.or_some]

theorem head?_stripUnderscores {s : PyStr} {c : Char}
    (h : (stripUnderscores s).head? = some c) : c.toNat ≠ 95 := by
  unfold stripUnderscores at h
  rw [List.head?_reverse] at h
  have h2 : (s.dropWhile (fun c => c.toNat == 95)).reverse.getLast? = some c :=
    getLast?_of_suffix (List.dropWhile_suffix _) h
  rw [List.getLast?_reverse] at h2
  have := head?_dropWhile h2
  simpa using this

theorem getLast?_stripUnderscores {s : PyStr} {c : Char}
    (h : (stripUnderscores s).getLast? = some c) : c.toNat ≠ 95 := by
  unfold stripUnderscores at h
  rw [List.getLast?_reverse] at h
  have := head?_dropWhile h
  simpa using this

theorem stripUnderscores_eq_self {s : PyStr}
    (h1 : ∀ c, s.head? = some c → c.toNat ≠ 95)
    (h2 : ∀ c, s.getLast? = some c → c.toNat ≠ 95) : stripUnderscores s = s := by
  unfold stripUnderscores
  have e1 : s.dropWhile (fun c => c.toNat == 95) = s :=
    dropWhile_eq_self_of_head (fun c hc => beq_eq_false_iff_ne.mpr (h1 c hc))
  rw [e1]
  have e2 : s.reverse.dropWhile (fun c => c.toNat == 95) = s.reverse :=
    dropWhile_eq_self_of_head (fun c hc => by
      rw [List.head?_reverse] at hc
      exact beq_eq_false_iff_ne.mpr (h2 c hc))
  rw [e2, List.reverse_reverse]

theorem pyLower_eq_self {s : PyStr} (h : ∀ c ∈ s, lowerWordChar c = true) :
    pyLower s = s := by
  unfold pyLower
  rw [List.map_congr_left (fun c hc => pyLowerChar_eq_self_of_lowerWord (h c hc))]
  exact List.map_id s

/-- The fully cleaned candidate computed by the sanitizer before the
fallback/digit adjustments. -/
def cleanNF (s : PyStr) : PyStr := pyLower (stripUnderscores (subNonWord s))

theorem cleanNF_all_lowerWord {s : PyStr} : ∀ c ∈ cleanNF s, lowerWordChar c = true := by
  intro c hc
  unfold cleanNF pyLower at hc
  obtain ⟨d, hd, rfl⟩ := List.mem_map.mp hc
  exact lowerWordChar_pyLowerChar (mem_subNonWordAux false s (mem_stripUnderscores hd))

theorem cleanNF_head_ne_underscore {s : PyStr} {c : Char}
    (h : (cleanNF s).head? = some c) : c.toNat ≠ 95 := by
  unfold cleanNF pyLower at h
  rw [List.head?_map] at h
  cases hh : (stripUnderscores (subNonWord s)).head? with
  | none => rw [hh] at h; simp at h
  | some d =>
    rw [hh] at h
    have h' : pyLowerChar d = c := by simpa using h
    subst h'
    exact pyLowerChar_ne_underscore (head?_stripUnderscores hh)

theorem cleanNF_getLast_ne_underscore {s : PyStr} {c : Char}
    (h : (cleanNF s).getLast? = some c) : c.toNat ≠ 95 := by
  unfold cleanNF pyLower at h
  rw [List.getLast?_map] at h
  cases hh : (stripUnderscores (subNonWord s)).getLast? with
  | none => rw [hh] at h; simp at h
  | some d =>
    rw [hh] at h
    have h' : pyLowerChar d = c := by simpa using h
    subst h'
    exact pyLowerChar_ne_underscore (getLast?_stripUnderscores hh)

theorem cleanNF_eq_self {s : PyStr}
    (hall : ∀ c ∈ s, lowerWordChar c = true)
    (hhead : ∀ c, s.head? = some c → c.toNat ≠ 95)
    (hlast : ∀ c, s.getLast? = some c → c.toNat ≠ 95) : cleanNF s = s := by
  unfold cleanNF
  have hword : ∀ c ∈ s, pyWordChar c = true := by
    intro c hc
    have := hall c hc
    simp only [lowerWordChar, Bool.or_eq_true, Bool.and_eq_true, decide_eq_true_eq,
      beq_iff_eq] at this
    simp only [pyWordChar, Bool.or_eq_true, Bool.and_eq_true, decide_eq_true_eq, beq_iff_eq]
    omega
  rw [show subNonWord s = s from subNonWordAux_eq_self hword false,
    stripUnderscores_eq_self hhead hlast, pyLower_eq_self hall]

theorem goodIdent_spec {s : PyStr} (h : goodIdent s = true) :
    s ≠ [] ∧ (∀ c ∈ s, lowerWordChar c = true) ∧
      (∀ c, s.head? = some c → lowerAlphaChar c = true) ∧
      (∀ c, s.getLast? = some c → c.toNat ≠ 95) := by
  cases s with
  | nil => simp [goodIdent] at h
  | cons c cs =>
    simp only [goodIdent, Bool.and_eq_true, List.all_eq_true] at h
    obtain ⟨⟨hh, hall⟩, hlast⟩ := h
    refine ⟨by simp, hall, ?_, ?_⟩
    · intro d hd
      simp only [List.head?_cons, Option.some.injEq] at hd
      exact hd ▸ hh
    · intro d hd
      rw [hd] at hlast
      simpa using hlast

theorem startsWithDigit_eq_false_of_alpha {s : PyStr}
    (h : ∀ c, s.head? = some c → lowerAlphaChar c = true) : startsWithDigit s = false := by
  cases s with
  | nil => rfl
  | cons c cs =>
    have := h c rfl
    simp only [lowerAlphaChar, Bool.and_eq_true, decide_eq_true_eq] at this
    simp only [startsWithDigit, asciiDigitChar]
    rw [Bool.and_eq_false_iff]
    right
    simp only [decide_eq_false_iff_not, not_le]
    omega

theorem matchesIdentPattern_of {s : PyStr} (hne : s ≠ [])
    (hall : ∀ c ∈ s, lowerWordChar c = true)
    (hhead : ∀ c, s.head? = some c → (lowerAlphaChar c || c.toNat == 95) = true) :
    matchesIdentPattern s = true := by
  cases s with
  | nil => exact absurd rfl hne
  | cons c cs =>
    simp only [matchesIdentPattern, Bool.and_eq_true, List.all_eq_true]
    exact ⟨hhead c rfl, fun d hd => hall d (List.mem_cons_of_mem _ hd)⟩

/-- Unfolding of the sanitizer when the cleaned candidate is empty. -/
theorem sanitize_eq_of_clean_nil {x : PyStr} (fb pre : PyStr) (hn : cleanNF x = []) :
    sanitizeSqlIdentifier x fb pre =
      if startsWithDigit fb then pre ++ '_' :: fb else fb := by
  simp only [sanitizeSqlIdentifier]
  rw [show pyLower (stripUnderscores (subNonWord x)) = [] from hn]
  simp only [List.isEmpty_nil, if_true]

/-- Unfolding of the sanitizer when the cleaned candidate is nonempty. -/
theorem sanitize_eq_of_clean_cons {x : PyStr} {c : Char} {cs : PyStr} (fb pre : PyStr)
    (hn : cleanNF x = c :: cs) :
    sanitizeSqlIdentifier x fb pre =
      if startsWithDigit (c :: cs) then pre ++ '_' :: c :: cs else c :: cs := by
  simp only [sanitizeSqlIdentifier]
  rw [show pyLower (stripUnderscores (subNonWord x)) = c :: cs from hn]
  simp only [List.isEmpty_cons, Bool.false_eq_true, if_false]

/-- Any string satisfying the cleaned-identifier conditions is a fixed
point of the sanitizer. -/
theorem sanitize_fixes {s : PyStr} (fb pre : PyStr) (hne : s ≠ [])
    (hall : ∀ c ∈ s, lowerWordChar c = true)
    (hhead : ∀ c, s.head? = some c → lowerAlphaChar c = true)
    (hlast : ∀ c, s.getLast? = some c → c.toNat ≠ 95) :
    sanitizeSqlIdentifier s fb pre = s := by
  have hc : cleanNF s = s := by
    refine cleanNF_eq_self hall ?_ hlast
    intro c hc
    have := hhead c hc
    simp only [lowerAlphaChar, Bool.and_eq_true, decide_eq_true_eq] at this
    omega
  obtain ⟨c, cs, rfl⟩ : ∃ c cs, s = c :: cs := by
    cases s with
    | nil => exact absurd rfl hne
    | cons c cs => exact ⟨c, cs, rfl⟩
  rw [sanitize_eq_of_clean_cons fb pre hc,
    if_neg (by simp [startsWithDigit_eq_false_of_alpha hhead])]

/-- **C7.** For every raw string, with well-formed `fallback`/`pre`
arguments (as all the repository's call sites supply), the sanitizer's
output matches `^[a-z_][a-z0-9_]*$` or equals the fallback / the
prefix-adjusted fallback, and the sanitizer is idempotent
(data_manager.py:409-417). -/
theorem sanitize_identifier_pattern_and_idempotent (x fallback pre : PyStr)
    (hf : goodIdent fallback = true) (hp : goodIdent pre = true) :
    (matchesIdentPattern (sanitizeSqlIdentifier x fallback pre) = true ∨
      sanitizeSqlIdentifier x fallback pre = fallback ∨
      sanitizeSqlIdentifier x fallback pre = pre ++ '_' :: fallback) ∧
    sanitizeSqlIdentifier (sanitizeSqlIdentifier x fallback pre) fallback pre =
      sanitizeSqlIdentifier x fallback pre := by
  obtain ⟨hfne, hfall, hfhead, hflast⟩ := goodIdent_spec hf
  obtain ⟨hpne, hpall, hphead, hplast⟩ := goodIdent_spec hp
  cases hn0 : cleanNF x with
  | nil =>
    have hy : sanitizeSqlIdentifier x fallback pre = fallback := by
      rw [sanitize_eq_of_clean_nil fallback pre hn0,
        if_neg (by simp [startsWithDigit_eq_false_of_alpha hfhead])]
    rw [hy]
    exact ⟨Or.inr (Or.inl rfl), sanitize_fixes fallback pre hfne hfall hfhead hflast⟩
  | cons c cs =>
    have hall0 : ∀ d ∈ (c :: cs : PyStr), lowerWordChar d = true := by
      intro d hd
      exact cleanNF_all_lowerWord (s := x) d (by rw [hn0]; exact hd)
    have hhead0 : c.toNat ≠ 95 := cleanNF_head_ne_underscore (by rw [hn0]; rfl)
    have hlast0 : ∀ d, (c :: cs : PyStr).getLast? = some d → d.toNat ≠ 95 := by
      intro d hd
      exact cleanNF_getLast_ne_underscore (s := x) (by rw [hn0]; exact hd)
    have hcword : lowerWordChar c = true := hall0 c (List.mem_cons_self ..)
    by_cases hdig : asciiDigitChar c = true
    · -- digit-start: the prefix is prepended
      have hy : sanitizeSqlIdentifier x fallback pre = pre ++ '_' :: c :: cs := by
        rw [sanitize_eq_of_clean_cons fallback pre hn0,
          if_pos (by simpa [startsWithDigit] using hdig)]
      rw [hy]
      obtain ⟨p, ps, rfl⟩ : ∃ p ps, pre = p :: ps := by
        cases pre with
        | nil => exact absurd rfl hpne
        | cons p ps => exact ⟨p, ps, rfl⟩
      have hpalpha : lowerAlphaChar p = true := hphead p rfl
      have hallY : ∀ d ∈ (p :: ps) ++ '_' :: c :: cs, lowerWordChar d = true := by
        intro d hd
        rcases List.mem_append.mp hd with hd | hd
        · exact hpall d hd
        · rcases List.mem_cons.mp hd with rfl | hd
          · decide
          · exact hall0 d hd
      have hheadY : ∀ d, ((p :: ps) ++ '_' :: c :: cs : PyStr).head? = some d →
          lowerAlphaChar d = true := by
        intro d hd
        simp only [List.cons_append, List.head?_cons, Option.some.injEq] at hd
        exact hd ▸ hpalpha
      have hlastY : ∀ d, ((p :: ps) ++ '_' :: c :: cs : PyStr).getLast? = some d →
          d.toNat ≠ 95 := by
        intro d hd
        rw [List.getLast?_append] at hd
        have hcons : ('_' :: c :: cs : PyStr).getLast? = (c :: cs : PyStr).getLast? := by
          rw [show ('_' :: c :: cs : PyStr) = ['_'] ++ c :: cs from rfl,
            List.getLast?_append]
          cases hg : (c :: cs : PyStr).getLast? with
          | none =>
            rw [List.getLast?_eq_none_iff] at hg
            exact absurd hg (by simp)
          | some e => rfl
        rw [hcons] at hd
        cases hg : (c :: cs : PyStr).getLast? with
        | none => simp at hg
        | some e =>
          rw [hg] at hd
          simp only [Option.or_some, Option.some.injEq] at hd
          exact hd ▸ hlast0 e hg
      refine ⟨Or.inl (matchesIdentPattern_of (by simp) hallY ?_), ?_⟩
      · intro d hd
        have := hheadY d hd
        simp [this]
      · exact sanitize_fixes fallback (p :: ps) (by simp) hallY hheadY hlastY
    · -- non-digit start: the cleaned string itself is returned
      have hcalpha : lowerAlphaChar c = true := by
        simp only [lowerWordChar, Bool.or_eq_true, Bool.and_eq_true, decide_eq_true_eq,
          beq_iff_eq] at hcword
        simp only [asciiDigitChar, Bool.and_eq_true, decide_eq_true_eq] at hdig
        simp only [lowerAlphaChar, Bool.and_eq_true, decide_eq_true_eq]
        omega
      have hy : sanitizeSqlIdentifier x fallback pre = c :: cs := by
        rw [sanitize_eq_of_clean_cons fallback pre hn0,
          if_neg (by simpa [startsWithDigit] using hdig)]
      rw [hy]
      have hheadC : ∀ d, (c :: cs : PyStr).head? = some d → lowerAlphaChar d = true := by
        intro d hd
        simp only [List.head?_cons, Option.some.injEq] at hd
        exact hd ▸ hcalpha
      refine ⟨Or.inl (matchesIdentPattern_of (by simp) hall0 ?_), ?_⟩
      · intro d hd
        have := hheadC d hd
        simp [this]
      · exact sanitize_fixes fallback pre (by simp) hall0 hheadC hlast0

/-- Witness for C7 at a concrete input. -/
theorem sanitize_identifier_pattern_and_idempotent_witness :
    (matchesIdentPattern (sanitizeSqlIdentifier "  9Hello World!  ".data "col".data
        "col".data) = true ∨
      sanitizeSqlIdentifier "  9Hello World!  ".data "col".data "col".data = "col".data ∨
      sanitizeSqlIdentifier "  9Hello World!  ".data "col".data "col".data =
        "col".data ++ '_' :: "col".data) ∧
    sanitizeSqlIdentifier (sanitizeSqlIdentifier "  9Hello World!  ".data "col".data
        "col".data) "col".data "col".data =
      sanitizeSqlIdentifier "  9Hello World!  ".data "col".data "col".data :=
  sanitize_identifier_pattern_and_idempotent "  9Hello World!  ".data "col".data "col".data
    (by decide) (by decide)

/-! ## Decimal representation of naturals (Python `str(n)`), and the
uniqueness resolver `DataManager._generate_unique_table_name`
(data_manager.py:587-596) probing existence with
`DataManager._table_exists` (data_manager.py:419-431). -/

/-- Decimal digits of `n`, most significant first, by fuel-bounded
division (`fuel ≥ n` suffices). -/
def natDigitsAux : Nat → Nat → PyStr
  | 0, _ => []
  | _ + 1, 0 => []
  | fuel + 1, n + 1 =>
    natDigitsAux fuel ((n + 1) / 10) ++ [Char.ofNat (48 + (n + 1) % 10)]

/-- Python `str(n)` for a natural number. -/
def natStr (n : Nat) : PyStr :=
  if n = 0 then ['0'] else natDigitsAux n n

/-- Numeric value of an ASCII digit character. -/
def charDigitVal (c : Char) : Nat := c.toNat - 48

/-- Decode a most-significant-first digit string. -/
def decodeDigits (s : PyStr) : Nat :=
  s.foldl (fun a c => 10 * a + charDigitVal c) 0

theorem foldl_decode_append (s : PyStr) (c : Char) (a : Nat) :
    List.foldl (fun a c => 10 * a + charDigitVal c) a (s ++ [c]) =
      10 * List.foldl (fun a c => 10 * a + charDigitVal c) a s + charDigitVal c := by
  rw [List.foldl_append]
  rfl

theorem foldl_decode_shift (s : PyStr) (a : Nat) :
    List.foldl (fun a c => 10 * a + charDigitVal c) a s =
      a * 10 ^ s.length + List.foldl (fun a c => 10 * a + charDigitVal c) 0 s := by
  induction s generalizing a with
  | nil => simp
  | cons c cs ih =>
    simp only [List.foldl_cons, List.length_cons]
    rw [ih (10 * a + charDigitVal c), ih (10 * 0 + charDigitVal c)]
    ring

theorem decode_natDigitsAux : ∀ (fuel n : Nat), n ≤ fuel →
    decodeDigits (natDigitsAux fuel n) = n := by
  intro fuel
  induction fuel with
  | zero => intro n hn; interval_cases n; rfl
  | succ f ih =>
    intro n hn
    cases n with
    | zero => rfl
    | succ m =>
      unfold natDigitsAux decodeDigits
      rw [foldl_decode_append]
      have hdiv : (m + 1) / 10 ≤ f := by
        have h1 : (m + 1) / 10 < m + 1 := Nat.div_lt_self (Nat.succ_pos m) (by omega)
        omega
      have := ih ((m + 1) / 10) hdiv
      unfold decodeDigits at this
      rw [this]
      have hmod : (m + 1) % 10 < 10 := Nat.mod_lt _ (by omega)
      have hchar : charDigitVal (Char.ofNat (48 + (m + 1) % 10)) = (m + 1) % 10 := by
        unfold charDigitVal
        rw [char_toNat_ofNat _ (by omega)]
        omega
      rw [hchar]
      omega

theorem decode_natStr (n : Nat) : decodeDigits (natStr n) = n := by
  unfold natStr
  by_cases h : n = 0
  · subst h; rfl
  · rw [if_neg h]
    exact decode_natDigitsAux n n le_rfl

theorem natStr_injective : Function.Injective natStr :=
  Function.LeftInverse.injective decode_natStr

/-- The candidate probed at loop counter `k` (k = 1 is the bare base,
k ≥ 2 is `f"{base_candidate}_{suffix}"`, data_manager.py:595). -/
def candidateAt (baseCand : PyStr) (k : Nat) : PyStr :=
  if k ≤ 1 then baseCand else baseCand ++ '_' :: natStr k

theorem candidateAt_injOn {bc : PyStr} {j k : Nat} (hj : 1 ≤ j) (hk : 1 ≤ k)
    (h : candidateAt bc j = candidateAt bc k) : j = k := by
  unfold candidateAt at h
  by_cases h1 : j ≤ 1
  · by_cases h2 : k ≤ 1
    · omega
    · rw [if_pos h1, if_neg h2] at h
      have := congrArg List.length h
      simp at this
  · by_cases h2 : k ≤ 1
    · rw [if_neg h1, if_pos h2] at h
      have := congrArg List.length h
      simp at this
    · rw [if_neg h1, if_neg h2] at h
      have := List.append_cancel_left h
      exact natStr_injective (by simpa using this)

/-- The `while self._table_exists(candidate)` search loop
(data_manager.py:591-596), with explicit fuel.  Calling it with fuel
`taken.length + 1` reproduces the source loop exactly: by the
pigeonhole argument below, the loop always exits within that many
probes, so the fuel bound is never reached. -/
def genUniqueFrom (ex : PyStr → Bool) (bc : PyStr) : Nat → Nat → PyStr
  | 0, k => candidateAt bc k
  | fuel + 1, k =>
    if ex (candidateAt bc k) then genUniqueFrom ex bc fuel (k + 1)
    else candidateAt bc k

/-- `DataManager._generate_unique_table_name(base_name)`
(data_manager.py:587-596).  `taken` is the set of existing table names
as probed by `_table_exists` (in-memory catalog keys plus physical
`sqlite_master` names, data_manager.py:419-431). -/
def generateUniqueTableName (taken : List PyStr) (baseName : PyStr) : PyStr :=
  let baseCandidate :=
    sanitizeSqlIdentifier baseName "uploaded_table".data "uploaded".data
  genUniqueFrom (fun s => decide (s ∈ taken)) baseCandidate (taken.length + 1) 1

theorem genUniqueFrom_free {ex : PyStr → Bool} {bc : PyStr} :
    ∀ (fuel k : Nat), (∃ j, k ≤ j ∧ j < k + fuel ∧ ex (candidateAt bc j) = false) →
      ex (genUniqueFrom ex bc fuel k) = false := by
  intro fuel
  induction fuel with
  | zero =>
    intro k ⟨j, hj1, hj2, _⟩
    omega
  | succ f ih =>
    intro k ⟨j, hj1, hj2, hj3⟩
    unfold genUniqueFrom
    by_cases hk : ex (candidateAt bc k) = true
    · rw [if_pos hk]
      refine ih (k + 1) ⟨j, ?_, by omega, hj3⟩
      rcases Nat.eq_or_lt_of_le hj1 with rfl | h
      · rw [hj3] at hk; exact absurd hk (by simp)
      · omega
    · rw [if_neg hk]
      exact Bool.eq_false_iff.mpr hk

theorem genUniqueFrom_first_free {ex : PyStr → Bool} {bc : PyStr} :
    ∀ (fuel k m : Nat), k ≤ m → m < k + fuel →
      (∀ j, k ≤ j → j < m → ex (candidateAt bc j) = true) →
      ex (candidateAt bc m) = false →
      genUniqueFrom ex bc fuel k = candidateAt bc m := by
  intro fuel
  induction fuel with
  | zero => intro k m h1 h2; omega
  | succ f ih =>
    intro k m h1 h2 hall hm
    unfold genUniqueFrom
    rcases Nat.eq_or_lt_of_le h1 with rfl | hlt
    · rw [if_neg (by rw [hm]; simp)]
    · rw [if_pos (hall k le_rfl hlt)]
      exact ih (k + 1) m hlt (by omega) (fun j hj1 hj2 => hall j (by omega) hj2) hm

/-- Pigeonhole: among the `taken.length + 1` pairwise-distinct
candidates `base, base_2, …`, at least one is not taken. -/
theorem exists_free_candidate (taken : List PyStr) (bc : PyStr) :
    ∃ j, 1 ≤ j ∧ j < 1 + (taken.length + 1) ∧
      (decide (candidateAt bc j ∈ taken) : Bool) = false := by
  by_contra hcon
  push_neg at hcon
  have hmem : ∀ j, 1 ≤ j → j < taken.length + 2 → candidateAt bc j ∈ taken := by
    intro j h1 h2
    have := hcon j h1 (by omega)
    simpa using this
  set L := (List.range' 1 (taken.length + 1)).map (candidateAt bc) with hL
  have hnodup : L.Nodup := by
    refine List.Nodup.map_on ?_ (List.nodup_range' 1 (taken.length + 1) 1 one_pos)
    intro j hj k hk hjk
    have hj1 : 1 ≤ j := (List.mem_range'_1.mp hj).1
    have hk1 : 1 ≤ k := (List.mem_range'_1.mp hk).1
    exact candidateAt_injOn hj1 hk1 hjk
  have hsub : L ⊆ taken := by
    intro a ha
    obtain ⟨j, hj, rfl⟩ := List.mem_map.mp ha
    obtain ⟨hj1, hj2⟩ := List.mem_range'_1.mp hj
    exact hmem j hj1 (by omega)
  have hlen : L.length = taken.length + 1 := by
    simp [hL]
  have hcard1 : L.toFinset.card = taken.length + 1 := by
    rw [List.toFinset_card_of_nodup hnodup, hlen]
  have hcard2 : L.toFinset ⊆ taken.toFinset := by
    intro a ha
    rw [List.mem_toFinset] at ha ⊢
    exact hsub ha
  have := Finset.card_le_card hcard2
  have hle := List.toFinset_card_le taken
  omega

/-- **C1.** The uniqueness resolver returns a name colliding with no
catalog table and no physical table; and when the sanitized base is
already taken (candidates `1..m` taken, all later candidates free, for
some `m ≥ 1`), repeated calls return `base_(m+1)` and then `base_(m+2)`:
strictly increasing suffixes starting at `_2`
(data_manager.py:587-596, 419-431). -/
theorem unique_table_name_no_collision_and_increasing
    (catalogNames physNames : List PyStr) (baseName : PyStr) :
    (generateUniqueTableName (catalogNames ++ physNames) baseName ∉ catalogNames ∧
     generateUniqueTableName (catalogNames ++ physNames) baseName ∉ physNames) ∧
    (∀ m, 1 ≤ m → m ≤ (catalogNames ++ physNames).length →
      (∀ j, 1 ≤ j → j ≤ (catalogNames ++ physNames).length + 2 →
        (candidateAt (sanitizeSqlIdentifier baseName "uploaded_table".data
            "uploaded".data) j ∈ catalogNames ++ physNames ↔ j ≤ m)) →
      generateUniqueTableName (catalogNames ++ physNames) baseName =
        candidateAt (sanitizeSqlIdentifier baseName "uploaded_table".data
          "uploaded".data) (m + 1) ∧
      generateUniqueTableName
          (generateUniqueTableName (catalogNames ++ physNames) baseName ::
            (catalogNames ++ physNames)) baseName =
        candidateAt (sanitizeSqlIdentifier baseName "uploaded_table".data
          "uploaded".data) (m + 2)) := by
  set taken := catalogNames ++ physNames with htaken
  set bc := sanitizeSqlIdentifier baseName "uploaded_table".data "uploaded".data with hbc
  constructor
  · have hfree : (decide (generateUniqueTableName taken baseName ∈ taken) : Bool) = false := by
      unfold generateUniqueTableName
      obtain ⟨j, hj1, hj2, hj3⟩ := exists_free_candidate taken bc
      exact @genUniqueFrom_free (fun s => decide (s ∈ taken)) bc
        (taken.length + 1) 1 ⟨j, hj1, hj2, hj3⟩
    rw [decide_eq_false_iff_not, htaken, List.mem_append] at hfree
    push_neg at hfree
    exact hfree
  · intro m hm1 hm2 hiff
    have hmain : generateUniqueTableName taken baseName = candidateAt bc (m + 1) := by
      unfold generateUniqueTableName
      refine genUniqueFrom_first_free (taken.length + 1) 1 (m + 1) (by omega) (by omega)
        ?_ ?_
      · intro j hj1 hj2
        rw [decide_eq_true_eq]
        exact (hiff j hj1 (by omega)).mpr (by omega)
      · rw [decide_eq_false_iff_not]
        intro hmem
        have := (hiff (m + 1) (by omega) (by omega)).mp hmem
        omega
    refine ⟨hmain, ?_⟩
    rw [hmain]
    unfold generateUniqueTableName
    have hlen2 : (candidateAt bc (m + 1) :: taken).length = taken.length + 1 := by simp
    rw [hlen2]
    refine genUniqueFrom_first_free (taken.length + 2) 1 (m + 2) (by omega) (by omega) ?_ ?_
    · intro j hj1 hj2
      rw [decide_eq_true_eq, List.mem_cons]
      by_cases hje : j = m + 1
      · exact Or.inl (by rw [hje])
      · exact Or.inr ((hiff j hj1 (by omega)).mpr (by omega))
    · rw [decide_eq_false_iff_not, List.mem_cons]
      rintro (h | h)
      · have := candidateAt_injOn (by omega) (by omega) h
        omega
      · have := (hiff (m + 2) (by omega) (by omega)).mp h
        omega

/-- Witness for C1 at a concrete state: catalog `["t"]`, no physical
tables, base `"t"`. -/
theorem unique_table_name_no_collision_and_increasing_witness :
    (generateUniqueTableName (["t".data] ++ []) "t".data ∉ ["t".data] ∧
     generateUniqueTableName (["t".data] ++ []) "t".data ∉ ([] : List PyStr)) ∧
    generateUniqueTableName (["t".data] ++ []) "t".data =
      candidateAt (sanitizeSqlIdentifier "t".data "uploaded_table".data
        "uploaded".data) 2 ∧
    generateUniqueTableName
        (generateUniqueTableName (["t".data] ++ []) "t".data :: (["t".data] ++ []))
        "t".data =
      candidateAt (sanitizeSqlIdentifier "t".data "uploaded_table".data
        "uploaded".data) 3 := by
  refine ⟨(unique_table_name_no_collision_and_increasing ["t".data] [] "t".data).1, ?_⟩
  exact (unique_table_name_no_collision_and_increasing ["t".data] [] "t".data).2 1
    (by decide) (by decide) (by decide)

/-! ## Cell values and the type inferrer
`DataManager._infer_column_type` (data_manager.py:688-715). -/

/-- A raw cell value as it occurs in a parsed data-frame column:
Python `None`/`NaN`, a string, a native bool, or an integer. -/
inductive CellValue where
  | vNone
  | vStr (s : PyStr)
  | vBool (b : Bool)
  | vInt (n : Int)
deriving DecidableEq

/-- Python `str(i)` for an integer. -/
def intStr (i : Int) : PyStr :=
  if i < 0 then '-' :: natStr i.natAbs else natStr i.toNat

/-- Python `str(v)`. -/
def strOfCell : CellValue → PyStr
  | .vNone => "None".data
  | .vStr s => s
  | .vBool true => "True".data
  | .vBool false => "False".data
  | .vInt n => intStr n

/-- Python `str.strip()` whitespace (ASCII subset). -/
def isPySpace (c : Char) : Bool :=
  c == ' ' || c == '\t' || c == '\n' || c == '\r' || c.toNat == 11 || c.toNat == 12

/-- `s.strip()`. -/
def pyStrip (s : PyStr) : PyStr :=
  ((s.dropWhile isPySpace).reverse.dropWhile isPySpace).reverse

/-- `str(v).lower() in {"true","false","0","1"} or isinstance(v, bool)`
(data_manager.py:694). -/
def boolTokenCheck (v : CellValue) : Bool :=
  decide (pyLower (strOfCell v) ∈
    (["true".data, "false".data, "0".data, "1".data] : List PyStr)) ||
  (match v with
   | .vBool _ => true
   | _ => false)

/-- The non-null filter of `_infer_column_type` (data_manager.py:689):
`v is not None and str(v).strip() != ""`. -/
def cellNonNull (v : CellValue) : Bool :=
  !(v == CellValue.vNone) && !(pyStrip (strOfCell v)).isEmpty

/-- `DataManager._infer_column_type(values)` (data_manager.py:688-715).
`floatOk` models the external Python `float(str(v))` success test and
`dateOk` models `pd.notna(pd.to_datetime(v, errors="coerce"))`; both
are external-library calls and are taken as parameters.  The source
compares `count / len(non_null) > 0.8` in floating point; `5 * count >
4 * len` is the exact rational form of that strict comparison. -/
def inferColumnType (floatOk : PyStr → Bool) (dateOk : CellValue → Bool)
    (values : List CellValue) : PyStr :=
  let nonNull := values.filter cellNonNull
  if nonNull.isEmpty then "string".data
  else if 5 * nonNull.countP boolTokenCheck > 4 * nonNull.length then "boolean".data
  else if 5 * nonNull.countP (fun v => floatOk (strOfCell v)) > 4 * nonNull.length then
    "number".data
  else if 5 * nonNull.countP dateOk > 4 * nonNull.length then "date".data
  else "string".data

/-- The claim's reading of the classifier: *at least* 80% (`≥`), in the
same evaluation order. -/
def specInferAtLeast (floatOk : PyStr → Bool) (dateOk : CellValue → Bool)
    (values : List CellValue) : PyStr :=
  let nonNull := values.filter cellNonNull
  if nonNull.isEmpty then "string".data
  else if 5 * nonNull.countP boolTokenCheck ≥ 4 * nonNull.length then "boolean".data
  else if 5 * nonNull.countP (fun v => floatOk (strOfCell v)) ≥ 4 * nonNull.length then
    "number".data
  else if 5 * nonNull.countP dateOk ≥ 4 * nonNull.length then "date".data
  else "string".data

/-- The corrected reading: drop null/blank entries, `string` if none
remain, then `boolean` / `number` / `date` in order whenever the
corresponding fraction of the non-null subset *strictly exceeds* 80%,
expressed as a rational-number fraction. -/
def specInferStrict (floatOk : PyStr → Bool) (dateOk : CellValue → Bool)
    (values : List CellValue) : PyStr :=
  let nonNull := values.filter cellNonNull
  if nonNull.isEmpty then "string".data
  else if ((nonNull.countP boolTokenCheck : ℚ) / nonNull.length > 4 / 5) then "boolean".data
  else if ((nonNull.countP (fun v => floatOk (strOfCell v)) : ℚ) / nonNull.length > 4 / 5)
    then "number".data
  else if ((nonNull.countP dateOk : ℚ) / nonNull.length > 4 / 5) then "date".data
  else "string".data

theorem frac_gt_iff (c n : ℕ) (hn : 0 < n) :
    ((c : ℚ) / n > 4 / 5) ↔ 5 * c > 4 * n := by
  rw [gt_iff_lt, div_lt_div_iff₀ (by norm_num) (by exact_mod_cast hn)]
  rw [show (4 : ℚ) * n = ((4 * n : ℕ) : ℚ) by push_cast; ring,
    show (c : ℚ) * 5 = ((5 * c : ℕ) : ℚ) by push_cast; ring]
  exact_mod_cast Iff.rfl

/-- Model of Python `float(str(v))` succeeding, on the inputs of the
counterexample below: `float("0")` parses, `float("zz")` raises. -/
def cexFloatOk : PyStr → Bool := fun s => s == "0".data

/-- Model of `pd.to_datetime(v, errors="coerce")` on the inputs of the
counterexample below: both `"0"` and `"zz"` coerce to `NaT`. -/
def cexDateOk : CellValue → Bool := fun _ => false

/-- Five non-null values, four of which are boolean tokens: the
boolean fraction is exactly 80%. -/
def cexValues : List CellValue :=
  [.vStr "0".data, .vStr "0".data, .vStr "0".data, .vStr "0".data, .vStr "zz".data]

/-- **C4, counterexample.**  On a column whose non-null values are
exactly 80% boolean tokens, the claimed `≥ 80%` classifier answers
`boolean` but `_infer_column_type` answers `string`: the source's
thresholds are strict (`> 0.8`, data_manager.py:697,707,713), not
`≥ 80%`. -/
theorem infer_type_at_least_80_claim_false :
    specInferAtLeast cexFloatOk cexDateOk cexValues = "boolean".data ∧
    inferColumnType cexFloatOk cexDateOk cexValues = "string".data := by
  constructor <;> decide

/-- **C4, amended.**  The inferrer drops null/blank entries, returns
`string` when none remain, and otherwise classifies
`boolean`/`number`/`date`/`string` in exactly this order with the
threshold "strictly more than 80% of the non-null subset"
(data_manager.py:688-715). -/
theorem infer_type_strict_thresholds (floatOk : PyStr → Bool) (dateOk : CellValue → Bool)
    (values : List CellValue) :
    inferColumnType floatOk dateOk values = specInferStrict floatOk dateOk values := by
  unfold inferColumnType specInferStrict
  by_cases h : (values.filter cellNonNull).isEmpty
  · rw [if_pos h, if_pos h]
  · rw [if_neg h, if_neg h]
    have hn : 0 < (values.filter cellNonNull).length := by
      cases hv : values.filter cellNonNull with
      | nil => rw [hv] at h; exact absurd rfl h
      | cons a l => simp [hv]
    rw [if_congr (Iff.symm (frac_gt_iff _ _ hn)) rfl
      (if_congr (Iff.symm (frac_gt_iff _ _ hn)) rfl
        (if_congr (Iff.symm (frac_gt_iff _ _ hn)) rfl rfl))]

/-! ## JSON values and `DataManager._safe_json_loads`
(data_manager.py:598-608). -/

/-- A JSON value as decoded by Python's `json` module (numeric
literals restricted to integers, string literals without escape
sequences; the oracle outputs relevant to the claims stay inside this
subset). -/
inductive JValue where
  | jnull
  | jbool (b : Bool)
  | jnum (n : Int)
  | jstr (s : PyStr)
  | jarr (elems : List JValue)
  | jobj (fields : List (PyStr × JValue))

/-- The `{` character (written numerically). -/
def lbrace : Char := Char.ofNat 123

/-- The `}` character (written numerically). -/
def rbrace : Char := Char.ofNat 125

/-- JSON whitespace. -/
def jsonWsChar (c : Char) : Bool :=
  c == ' ' || c == '\t' || c == '\n' || c == '\r'

/-- Parser modes: a value, the tail of an array, or the tail of an
object. -/
inductive JMode where
  | value
  | arr (acc : List JValue)
  | obj (acc : List (PyStr × JValue))

/-- Fuel-bounded recursive-descent JSON parser, modelling Python
`json.loads` on the subset of `JValue`.  Returns the parsed value and
the unconsumed remainder. -/
def jRun : Nat → JMode → PyStr → Option (JValue × PyStr)
  | 0, _, _ => none
  | fuel + 1, .value, s =>
    match s.dropWhile jsonWsChar with
    | [] => none
    | c :: rest =>
      if c == 'n' then
        if rest.take 3 = "ull".data then some (.jnull, rest.drop 3) else none
      else if c == 't' then
        if rest.take 3 = "rue".data then some (.jbool true, rest.drop 3) else none
      else if c == 'f' then
        if rest.take 4 = "alse".data then some (.jbool false, rest.drop 4) else none
      else if c == '"' then
        let content := rest.takeWhile (fun d => !(d == '"'))
        match rest.drop content.length with
        | '"' :: rest3 => some (.jstr content, rest3)
        | _ => none
      else if c == '-' then
        let ds := rest.takeWhile asciiDigitChar
        if ds.isEmpty then none
        else some (.jnum (-(decodeDigits ds : Int)), rest.drop ds.length)
      else if asciiDigitChar c then
        let ds := (c :: rest).takeWhile asciiDigitChar
        some (.jnum (decodeDigits ds : Int), (c :: rest).drop ds.length)
      else if c == lbrace then
        match (rest.dropWhile jsonWsChar) with
        | d :: rest2 => if d == rbrace then some (.jobj [], rest2) else jRun fuel (.obj []) rest
        | [] => none
      else if c == '[' then
        match (rest.dropWhile jsonWsChar) with
        | d :: rest2 => if d == ']' then some (.jarr [], rest2) else jRun fuel (.arr []) rest
        | [] => none
      else none
  | fuel + 1, .arr acc, s =>
    match jRun fuel .value s with
    | none => none
    | some (v, r) =>
      match r.dropWhile jsonWsChar with
      | ',' :: r2 => jRun fuel (.arr (acc ++ [v])) r2
      | ']' :: r2 => some (.jarr (acc ++ [v]), r2)
      | _ => none
  | fuel + 1, .obj acc, s =>
    match s.dropWhile jsonWsChar with
    | '"' :: rest =>
      let key := rest.takeWhile (fun d => !(d == '"'))
      match rest.drop key.length with
      | '"' :: rest2 =>
        match rest2.dropWhile jsonWsChar with
        | ':' :: rest3 =>
          match jRun fuel .value rest3 with
          | none => none
          | some (v, r) =>
            match r.dropWhile jsonWsChar with
            | ',' :: r2 => jRun fuel (.obj (acc ++ [(key, v)])) r2
            | d :: r2 =>
              if d == rbrace then some (.jobj (acc ++ [(key, v)]), r2) else none
            | [] => none
        | _ => none
      | _ => none
    | _ => none

/-- Model of Python `json.loads`: parse one value and require only
whitespace to remain (`json.loads` raises `Extra data` otherwise). -/
def jsonLoadsModel (s : PyStr) : Option JValue :=
  match jRun (2 * s.length + 4) .value s with
  | some (v, rest) => if (rest.dropWhile jsonWsChar).isEmpty then some v else none
  | none => none

/-- `s.replace(pat, "")` for a nonempty pattern: remove every
(left-to-right, non-overlapping) occurrence. -/
def pyRemoveAllAux (pat : PyStr) : Nat → PyStr → PyStr
  | 0, s => s
  | fuel + 1, s =>
    match s with
    | [] => []
    | c :: rest =>
      if pat.isPrefixOf (c :: rest) then pyRemoveAllAux pat fuel ((c :: rest).drop pat.length)
      else c :: pyRemoveAllAux pat fuel rest

def pyRemoveAll (pat s : PyStr) : PyStr := pyRemoveAllAux pat s.length s

/-- `s.find(c)`: index of the first occurrence. -/
def findCharIdx (c : Char) : PyStr → Option Nat
  | [] => none
  | d :: rest => if d == c then some 0 else (findCharIdx c rest).map (· + 1)

/-- `s.rfind(c)`: index of the last occurrence. -/
def rfindCharIdx (c : Char) (s : PyStr) : Option Nat :=
  (findCharIdx c s.reverse).map (fun i => s.length - 1 - i)

/-- The cleaning phase of `_safe_json_loads` (data_manager.py:599):
`raw.strip().replace("```json", "").replace("```", "").strip()`. -/
def cleanOracleText (raw : PyStr) : PyStr :=
  pyStrip (pyRemoveAll "```".data (pyRemoveAll "```json".data (pyStrip raw)))

/-- The slicing step of `_safe_json_loads` (data_manager.py:600-603):
`start = text.find("{"); end = text.rfind("}")`, and
`text = text[start:end+1]` when `start >= 0 and end > start`. -/
def sliceFirstToLast (t : PyStr) : PyStr :=
  match findCharIdx lbrace t, rfindCharIdx rbrace t with
  | some st, some en => if st < en then (t.drop st).take (en + 1 - st) else t
  | _, _ => t

/-- `DataManager._safe_json_loads(raw)` (data_manager.py:598-608):
clean code fences, slice from the first `{` to the last `}` when that
span is properly ordered, parse, and keep the result only when it is a
JSON object (a Python `dict`). -/
def safeJsonLoads (raw : PyStr) : Option (List (PyStr × JValue)) :=
  match jsonLoadsModel (sliceFirstToLast (cleanOracleText raw)) with
  | some (.jobj fields) => some fields
  | _ => none

/-- The amended specification of the extraction: take the segment of
the cleaned text that starts at the first `{` and ends at the last
`}`, when both exist in that order, formulated with `dropWhile` from
both ends. -/
def specSafeJsonLoads (raw : PyStr) : Option (List (PyStr × JValue)) :=
  let t := cleanOracleText raw
  let u := t.dropWhile (fun c => !(c == lbrace))
  let w := (u.reverse.dropWhile (fun c => !(c == rbrace))).reverse
  let sliced := if u.isEmpty || w.isEmpty then t else w
  match jsonLoadsModel sliced with
  | some (.jobj fields) => some fields
  | _ => none

/-! ### Relating `find`/`rfind` index slicing to two-sided `dropWhile` -/

theorem findCharIdx_none_mem {c : Char} : ∀ {s : PyStr}, findCharIdx c s = none →
    ∀ d ∈ s, (d == c) = false := by
  intro s
  induction s with
  | nil => intro _ d hd; simp at hd
  | cons e rest ih =>
    intro h d hd
    unfold findCharIdx at h
    by_cases he : e == c
    · rw [if_pos he] at h; exact absurd h (by simp)
    · rw [if_neg he] at h
      rcases List.mem_cons.mp hd with rfl | hd
      · exact Bool.eq_false_iff.mpr he
      · exact ih (by simpa using h) d hd

theorem findCharIdx_none_dropWhile {c : Char} {s : PyStr} (h : findCharIdx c s = none) :
    s.dropWhile (fun d => !(d == c)) = [] := by
  rw [List.dropWhile_eq_nil_iff]
  intro d hd
  simp [findCharIdx_none_mem h d hd]

theorem findCharIdx_some_spec {c : Char} : ∀ {s : PyStr} {i : Nat},
    findCharIdx c s = some i →
      s.dropWhile (fun d => !(d == c)) = s.drop i ∧ i < s.length ∧ s[i]? = some c := by
  intro s
  induction s with
  | nil => intro i h; simp [findCharIdx] at h
  | cons e rest ih =>
    intro i h
    unfold findCharIdx at h
    by_cases he : e == c
    · rw [if_pos he] at h
      have : i = 0 := by simpa using h.symm
      subst this
      refine ⟨?_, by simp, by simpa using he⟩
      rw [List.dropWhile_cons, if_neg (by simp [he])]
      rfl
    · rw [if_neg he] at h
      cases hr : findCharIdx c rest with
      | none => rw [hr] at h; exact absurd h (by simp)
      | some j =>
        rw [hr] at h
        have hij : i = j + 1 := by simpa using h.symm
        subst hij
        obtain ⟨h1, h2, h3⟩ := ih hr
        refine ⟨?_, by simpa using h2, by simpa using h3⟩
        rw [List.dropWhile_cons, if_pos (by simp [Bool.eq_false_iff.mpr he])]
        simpa using h1

theorem findCharIdx_append_lt {c : Char} : ∀ {a b : PyStr} {i : Nat},
    findCharIdx c (a ++ b) = some i → i < a.length → findCharIdx c a = some i := by
  intro a
  induction a with
  | nil => intro b i _ hi; simp at hi
  | cons e rest ih =>
    intro b i h hi
    rw [List.cons_append] at h
    unfold findCharIdx at h ⊢
    by_cases he : e == c
    · rwa [if_pos he] at h ⊢
    · rw [if_neg he] at h ⊢
      cases hr : findCharIdx c (rest ++ b) with
      | none => rw [hr] at h; exact absurd h (by simp)
      | some j =>
        rw [hr] at h
        have hij : i = j + 1 := by simpa using h.symm
        subst hij
        rw [ih hr (by simpa using hi)]
        rfl

theorem findCharIdx_append_ge {c : Char} : ∀ {a b : PyStr} {i : Nat},
    findCharIdx c (a ++ b) = some i → a.length ≤ i → findCharIdx c a = none := by
  intro a
  induction a with
  | nil => intro b i _ _; rfl
  | cons e rest ih =>
    intro b i h hi
    rw [List.cons_append] at h
    unfold findCharIdx at h ⊢
    by_cases he : e == c
    · rw [if_pos he] at h
      have : i = 0 := by simpa using h.symm
      simp only [List.length_cons] at hi
      omega
    · rw [if_neg he] at h ⊢
      cases hr : findCharIdx c (rest ++ b) with
      | none => rw [hr] at h; exact absurd h (by simp)
      | some j =>
        rw [hr] at h
        have hij : i = j + 1 := by simpa using h.symm
        subst hij
        rw [ih hr (by simpa using hi)]
        rfl

theorem findCharIdx_append_none {c : Char} : ∀ {a b : PyStr},
    findCharIdx c (a ++ b) = none → findCharIdx c a = none := by
  intro a
  induction a with
  | nil => intro b _; rfl
  | cons e rest ih =>
    intro b h
    rw [List.cons_append] at h
    unfold findCharIdx at h ⊢
    by_cases he : e == c
    · rw [if_pos he] at h; exact absurd h (by simp)
    · rw [if_neg he] at h ⊢
      cases hr : findCharIdx c (rest ++ b) with
      | none => rw [ih hr]; rfl
      | some j => rw [hr] at h; exact absurd h (by simp)

/-- The index-based slice from the first `{` to the last `}` equals
the two-sided `dropWhile` formulation. -/
theorem sliceFirstToLast_eq (t : PyStr) :
    sliceFirstToLast t =
      (if (t.dropWhile (fun c => !(c == lbrace))).isEmpty ||
          (((t.dropWhile (fun c => !(c == lbrace))).reverse.dropWhile
            (fun c => !(c == rbrace))).reverse).isEmpty
       then t
       else ((t.dropWhile (fun c => !(c == lbrace))).reverse.dropWhile
         (fun c => !(c == rbrace))).reverse) := by
  set u := t.dropWhile (fun c => !(c == lbrace)) with hu
  set w := (u.reverse.dropWhile (fun c => !(c == rbrace))).reverse with hw
  unfold sliceFirstToLast
  split
  · rename_i st en hf hen
    obtain ⟨hdw, hstlen, hgets⟩ := findCharIdx_some_spec hf
    have hust : u = t.drop st := hu ▸ hdw
    have hrev : t.reverse = u.reverse ++ (t.take st).reverse := by
      rw [hust, ← List.reverse_append, List.take_append_drop]
    have hulen : u.length = t.length - st := by
      rw [hust, List.length_drop]
    obtain ⟨j, hg, henj⟩ : ∃ j, findCharIdx rbrace t.reverse = some j ∧
        en = t.length - 1 - j := by
      unfold rfindCharIdx at hen
      cases hg : findCharIdx rbrace t.reverse with
      | none => rw [hg] at hen; exact absurd hen (by simp)
      | some j =>
        rw [hg] at hen
        exact ⟨j, rfl, by simpa using hen.symm⟩
    obtain ⟨-, hjlen, hgetj⟩ := findCharIdx_some_spec hg
    rw [List.length_reverse] at hjlen
    by_cases hcase : j < u.length
    · -- the last `}` lies at or after the first `{`
      have hfj : findCharIdx rbrace u.reverse = some j :=
        findCharIdx_append_lt (hrev ▸ hg) (by simpa using hcase)
      obtain ⟨hdw2, hjlen2, hgetj2⟩ := findCharIdx_some_spec hfj
      have hwval : w = u.take (u.length - j) := by
        rw [hw, hdw2, List.drop_reverse, List.reverse_reverse]
      have hne : st ≠ t.length - 1 - j := by
        intro hcontra
        have h2 : t.reverse[j]? = t[t.length - 1 - j]? := List.getElem?_reverse hjlen
        rw [hgetj, ← hcontra, hgets] at h2
        have : rbrace = lbrace := by simpa using h2
        exact absurd (congrArg Char.toNat this) (by decide)
      have hlt : st < en := by omega
      have hnonempty : ¬(u.isEmpty || w.isEmpty) = true := by
        have hul : 0 < u.length := by omega
        have hwl : 0 < w.length := by
          rw [hwval, List.length_take]
          omega
        simp only [Bool.or_eq_true, List.isEmpty_iff]
        rintro (h | h)
        · rw [h] at hul; simp at hul
        · rw [h] at hwl; simp at hwl
      rw [if_pos hlt, if_neg hnonempty, hwval, hust]
      rw [List.length_drop]
      congr 1
      omega
    · -- the last `}` lies strictly before the first `{`
      have hfu : findCharIdx rbrace u.reverse = none :=
        findCharIdx_append_ge (hrev ▸ hg) (by simpa using hcase)
      have hwe : w = [] := by
        rw [hw, findCharIdx_none_dropWhile hfu, List.reverse_nil]
      rw [if_neg (show ¬st < en by omega), if_pos (by simp [hwe])]
  · rename_i harm
    cases hf : findCharIdx lbrace t with
    | none =>
      have hue : u = [] := hu ▸ findCharIdx_none_dropWhile hf
      rw [if_pos (by simp [hue])]
    | some st =>
      cases hen : rfindCharIdx rbrace t with
      | some en => exact (harm st en hf hen).elim
      | none =>
        have hg : findCharIdx rbrace t.reverse = none := by
          unfold rfindCharIdx at hen
          cases hg : findCharIdx rbrace t.reverse with
          | none => rfl
          | some j => rw [hg] at hen; exact absurd hen (by simp)
        obtain ⟨hdw, hstlen, hgets⟩ := findCharIdx_some_spec hf
        have hust : u = t.drop st := hu ▸ hdw
        have hrev : t.reverse = u.reverse ++ (t.take st).reverse := by
          rw [hust, ← List.reverse_append, List.take_append_drop]
        have hwe : w = [] := by
          rw [hw, findCharIdx_none_dropWhile (findCharIdx_append_none (hrev ▸ hg)),
            List.reverse_nil]
        rw [if_pos (by simp [hwe])]

/-- **C8, amended.**  `_safe_json_loads` extracts the segment of the
cleaned text running from the *first* `{` to the *last* `}` (when both
exist in that order; otherwise it parses the cleaned text unchanged),
and returns absent exactly when the parsed slice is not a JSON object
(data_manager.py:598-608). -/
theorem safe_json_loads_first_to_last_brace (raw : PyStr) :
    safeJsonLoads raw = specSafeJsonLoads raw := by
  unfold safeJsonLoads specSafeJsonLoads
  rw [sliceFirstToLast_eq (cleanOracleText raw)]

/-! ### The claim's reading of the extraction: first top-level span -/

/-- Scan for the end of the first top-level `{...}` span, tracking
brace depth. -/
def balancedSpanAux : Nat → Nat → PyStr → PyStr → Option PyStr
  | 0, _, _, _ => none
  | _ + 1, _, _, [] => none
  | fuel + 1, depth, acc, c :: rest =>
    if c == lbrace then balancedSpanAux fuel (depth + 1) (acc ++ [c]) rest
    else if c == rbrace then
      if depth = 1 then some (acc ++ [c])
      else balancedSpanAux fuel (depth - 1) (acc ++ [c]) rest
    else balancedSpanAux fuel depth (acc ++ [c]) rest

/-- The first top-level `{...}` span of a text, per the claim's words. -/
def firstTopLevelSpan (t : PyStr) : Option PyStr :=
  let u := t.dropWhile (fun c => !(c == lbrace))
  if u.isEmpty then none else balancedSpanAux u.length 0 [] u

/-- `_safe_json_loads` as the claim describes it: clean the fences,
extract the *first top-level* `{...}` span, and parse that span. -/
def claimSafeJsonLoads (raw : PyStr) : Option (List (PyStr × JValue)) :=
  match firstTopLevelSpan (cleanOracleText raw) with
  | none => none
  | some span =>
    match jsonLoadsModel span with
    | some (.jobj fields) => some fields
    | _ => none

/-- Extract an integer field from a decoded JSON object (last binding
wins, as in a Python dict built by `json.loads`). -/
def jIntField (k : PyStr) (o : Option (List (PyStr × JValue))) : Option Int :=
  o.bind (fun fields =>
    (fields.reverse.find? (fun kv => kv.1 == k)).bind (fun kv =>
      match kv.2 with
      | .jnum n => some n
      | _ => none))

/-- **C8, counterexample.** On the oracle text `{"a": 1} {"b": 2}` the
claimed behaviour extracts the first top-level span `{"a": 1}` and
parses it into an object (with field `a = 1`), but `_safe_json_loads`
slices from the first `{` to the *last* `}`, feeds `json.loads` the
unparseable text `{"a": 1} {"b": 2}`, and returns absent
(data_manager.py:600-603). -/
theorem safe_json_loads_first_span_claim_false :
    jIntField "a".data
        (claimSafeJsonLoads "\x7b\"a\": 1\x7d \x7b\"b\": 2\x7d".data) = some 1 ∧
    (safeJsonLoads "\x7b\"a\": 1\x7d \x7b\"b\": 2\x7d".data).isNone = true := by
  constructor <;> decide

/-! ## The data-manager state model

`DataManager` holds `data_cache` (per-process DataFrame cache),
`metadata` (the in-memory catalog), a primary engine over the physical
store, and a metadata engine over the registry
(data_manager.py:49-61).  The two stores are modelled explicitly;
`metaReady` models `meta_engine is not None`. -/

/-- Association-list lookup (Python dicts have unique keys). -/
def alistGet {α : Type} (k : PyStr) : List (PyStr × α) → Option α
  | [] => none
  | kv :: rest => if kv.1 = k then some kv.2 else alistGet k rest

/-- Python dict assignment: overwrite in place, else append. -/
def alistInsert {α : Type} (k : PyStr) (v : α) : List (PyStr × α) → List (PyStr × α)
  | [] => [(k, v)]
  | kv :: rest => if kv.1 = k then (k, v) :: rest else kv :: alistInsert k v rest

/-- Python `del d[k]`. -/
def alistErase {α : Type} (k : PyStr) : List (PyStr × α) → List (PyStr × α)
  | [] => []
  | kv :: rest => if kv.1 = k then rest else kv :: alistErase k rest

def alistKeys {α : Type} (l : List (PyStr × α)) : List PyStr := l.map (fun kv => kv.1)

/-- A parsed tabular payload (`pandas.DataFrame`): header strings and
row-major cells. -/
structure Frame where
  header : List PyStr
  cells : List (List CellValue)
deriving DecidableEq

/-- `df.empty`: some axis has length zero. -/
def Frame.emptyFrame (f : Frame) : Bool := f.cells.isEmpty || f.header.isEmpty

/-- The catalog entry `TableMetadataDict` (data_manager.py:21-30). -/
structure TableMetadataDict where
  name : PyStr
  description : PyStr
  columns : List PyStr
  rows : Nat
  source : PyStr
  table_comment_cn : PyStr
  column_comments : List (PyStr × PyStr)
  column_original_names : List (PyStr × PyStr)
  sample_questions : List PyStr
deriving DecidableEq

/-- The three metadata-registry relations (data_manager.py:73-107):
`table_metadata(table_name, table_comment_cn)`,
`column_metadata(table_name, column_name, column_comment_cn,
original_name)` and `sample_questions(table_name, question_order,
question_text)`.  The source always stores a string (possibly empty)
in `original_name`, so it is modelled as `PyStr`, which also makes the
`COALESCE(original_name, column_name)` of the read query a no-op. -/
structure RegistryState where
  tableRows : List (PyStr × PyStr)
  columnRows : List (PyStr × PyStr × PyStr × PyStr)
  questionRows : List (PyStr × Nat × PyStr)
deriving DecidableEq

/-- The whole mutable state of a `DataManager` instance. -/
structure DMState where
  dataCache : List (PyStr × Frame)
  metadata : List (PyStr × TableMetadataDict)
  physical : List (PyStr × Frame)
  registry : RegistryState
  metaReady : Bool
deriving DecidableEq

/-- The record assembled by `_get_table_metadata_record`
(data_manager.py:549-562). -/
structure MetaRecord where
  table_comment_cn : PyStr
  column_comments : List (PyStr × PyStr)
  column_original_names : List (PyStr × PyStr)
  sample_questions : List PyStr
deriving DecidableEq

/-- `enumerate(l, start = i)`. -/
def enumFrom {α : Type} : Nat → List α → List (Nat × α)
  | _, [] => []
  | i, a :: rest => (i, a) :: enumFrom (i + 1) rest

/-- `DataManager._save_table_metadata` (data_manager.py:433-497):
no-op when the registry engine is absent; the whole transaction is
atomic, and any exception is caught and logged, leaving the registry
unchanged (`writeOk = false` injects such a failure).  On success the
table row is upserted, the column rows for the table are deleted and
reinserted from `column_comments` (with
`original_name = column_original_names.get(column_name, "")`), and the
question rows are deleted and reinserted from
`enumerate(sample_questions[:4], start=1)`. -/
def saveTableMetadata (writeOk : Bool) (st : DMState) (tableName tableCommentCn : PyStr)
    (columnComments columnOriginalNames : List (PyStr × PyStr))
    (sampleQuestions : List PyStr) : DMState :=
  if !st.metaReady then st
  else if !writeOk then st
  else
    let reg := st.registry
    let tables := alistInsert tableName tableCommentCn reg.tableRows
    let columns := reg.columnRows.filter (fun r => !(r.1 == tableName)) ++
      columnComments.map (fun kv =>
        (tableName, kv.1, kv.2, (alistGet kv.1 columnOriginalNames).getD []))
    let questions := reg.questionRows.filter (fun r => !(r.1 == tableName)) ++
      (enumFrom 1 (sampleQuestions.take 4)).map (fun iq => (tableName, iq.1, iq.2))
    ⟨st.dataCache, st.metadata, st.physical, ⟨tables, columns, questions⟩, st.metaReady⟩

/-- Ascending stable insertion by `question_order`, modelling the
`ORDER BY question_order ASC` of the read query. -/
def insertByOrder (row : PyStr × Nat × PyStr) :
    List (PyStr × Nat × PyStr) → List (PyStr × Nat × PyStr)
  | [] => [row]
  | r :: rest => if row.2.1 ≤ r.2.1 then row :: r :: rest else r :: insertByOrder row rest

def sortByOrder (rows : List (PyStr × Nat × PyStr)) : List (PyStr × Nat × PyStr) :=
  rows.foldr insertByOrder []

/-- `DataManager._get_table_metadata_record` (data_manager.py:499-565):
absent when the registry engine is absent, when the read raises
(`readOk = false`), or when no table row exists; otherwise the comment
and the per-column/question data derived from the rows (dict
comprehensions: last row wins per column name). -/
def getTableMetadataRecord (readOk : Bool) (st : DMState) (tableName : PyStr) :
    Option MetaRecord :=
  if !st.metaReady || !readOk then none
  else
    match alistGet tableName st.registry.tableRows with
    | none => none
    | some tc =>
      let crows := st.registry.columnRows.filter (fun r => r.1 == tableName)
      let qrows := sortByOrder (st.registry.questionRows.filter (fun r => r.1 == tableName))
      some ⟨tc,
        crows.foldl (fun acc r => alistInsert r.2.1 r.2.2.1 acc) [],
        crows.foldl (fun acc r => alistInsert r.2.1 r.2.2.2 acc) [],
        qrows.map (fun r => r.2.2)⟩

/-- `DataManager._delete_table_metadata` (data_manager.py:567-585):
no-op when the registry engine is absent or the (atomic) transaction
raises; otherwise removes all three row classes for the table. -/
def deleteTableMetadata (writeOk : Bool) (st : DMState) (tableName : PyStr) : DMState :=
  if !st.metaReady || !writeOk then st
  else
    ⟨st.dataCache, st.metadata, st.physical,
      ⟨st.registry.tableRows.filter (fun r => !(r.1 == tableName)),
       st.registry.columnRows.filter (fun r => !(r.1 == tableName)),
       st.registry.questionRows.filter (fun r => !(r.1 == tableName))⟩,
      st.metaReady⟩

/-! ## Naming-plan validation and the naming-oracle client
(`DataManager._generate_naming_plan`, data_manager.py:623-686). -/

/-- Python `dict.get(k)` on a dict decoded by `json.loads` (duplicate
keys: last binding wins). -/
def jsonDictGet (k : PyStr) (fields : List (PyStr × JValue)) : Option JValue :=
  (fields.reverse.find? (fun kv => kv.1 == k)).map (fun kv => kv.2)

/-- The validated `NamingPlan` (data_manager.py:39-43).  `columns`
keeps the raw JSON items, exactly as the source carries them along
(`cast(NamingPlan, parsed)` does no element-level validation). -/
structure NamingPlanL where
  table_name_en : PyStr
  table_comment_cn : PyStr
  columns : List JValue
  sample_questions : Option (List JValue)

/-- The required-field type checks of `_generate_naming_plan`
(data_manager.py:671-683): `table_name_en`/`table_comment_cn` must be
strings, `columns` a list, and `sample_questions`, when the key is
present, a list; otherwise the plan is rejected wholesale. -/
def validateNamingPlan (d : List (PyStr × JValue)) : Option NamingPlanL :=
  match jsonDictGet "table_name_en".data d with
  | some (.jstr tn) =>
    match jsonDictGet "table_comment_cn".data d with
    | some (.jstr tc) =>
      match jsonDictGet "columns".data d with
      | some (.jarr cols) =>
        if (jsonDictGet "sample_questions".data d).isSome then
          match jsonDictGet "sample_questions".data d with
          | some (.jarr qs) => some ⟨tn, tc, cols, some qs⟩
          | _ => none
        else some ⟨tn, tc, cols, none⟩
      | _ => none
    | _ => none
  | _ => none

/-- `DataManager._generate_naming_plan` (data_manager.py:623-686).
Returns absent when no LLM is configured or the column list is empty;
`llmRaw` injects the oracle call outcome (`.error` = the `invoke` call
raised; caught by the `except` and degraded to absent).  The filename
and sample rows only shape the prompt, so they do not appear here. -/
def generateNamingPlan (llmConfigured : Bool) (llmRaw : Except PyStr PyStr)
    (originalColumns : List PyStr) : Option NamingPlanL :=
  if !llmConfigured || originalColumns.isEmpty then none
  else
    match llmRaw with
    | .error _ => none
    | .ok raw =>
      match safeJsonLoads raw with
      | none => none
      | some d => validateNamingPlan d

/-- `sep.join(parts)`. -/
def joinSep (sep : PyStr) : List PyStr → PyStr
  | [] => []
  | [x] => x
  | x :: rest => x ++ sep ++ joinSep sep rest

/-- Python `str(v)` of a JSON-decoded value (fuel-bounded for the
nested cases).  Scalars are rendered exactly
(`None`/`True`/`False`/integers/strings); nested lists and objects —
which the relevant claims never exercise — are rendered JSON-style,
which differs from Python `repr` only in quoting details. -/
def renderJValue : Nat → JValue → PyStr
  | _, .jnull => "None".data
  | _, .jbool true => "True".data
  | _, .jbool false => "False".data
  | _, .jnum n => intStr n
  | _, .jstr s => s
  | 0, _ => []
  | fuel + 1, .jarr xs => '[' :: joinSep ", ".data (xs.map (renderJValue fuel)) ++ [']']
  | fuel + 1, .jobj fs =>
    lbrace :: joinSep ", ".data
      (fs.map (fun kv => kv.1 ++ ": ".data ++ renderJValue fuel kv.2)) ++ [rbrace]

/-- `str(v)` with a fuel bound far beyond any realistic nesting depth
(the claims only exercise scalar items, which consume no fuel). -/
def strOfJValue (v : JValue) : PyStr := renderJValue 1000000 v

/-! ## Sample questions (data_manager.py:610-621, 763-774) -/

/-- `DataManager._build_default_sample_questions` (data_manager.py:610-621). -/
def buildDefaultSampleQuestions (tableCommentCn : PyStr)
    (originalColumns : List PyStr) : List PyStr :=
  let focusColumns :=
    if originalColumns.isEmpty then "主要字段".data
    else joinSep "、".data (originalColumns.take 3)
  [tableCommentCn ++ "一共有多少条数据？".data,
   tableCommentCn ++ "最近30天的趋势如何？".data,
   "按".data ++ focusColumns ++ "分组统计，Top 10 是什么？".data,
   tableCommentCn ++ "里是否有异常值或缺失值？".data]

/-- `[str(item).strip() for item in plan["sample_questions"] if
str(item).strip()][:4]` (data_manager.py:765-769). -/
def cleanedPlanQuestions (qs : List JValue) : List PyStr :=
  ((qs.map (fun item => pyStrip (strOfJValue item))).filter (fun q => !q.isEmpty)).take 4

/-- The questions a plan supplies (data_manager.py:763-769): absent
plan or absent/non-list key contributes none. -/
def planQuestionsOf (plan : Option NamingPlanL) : List PyStr :=
  match plan with
  | some p =>
    match p.sample_questions with
    | some qs => cleanedPlanQuestions qs
    | none => []
  | none => []

/-- The sample-question derivation inside `import_uploaded_file`
(data_manager.py:763-774): plan questions (cleaned, first 4), padded
with the defaults up to exactly 4 when fewer. -/
def computeSampleQuestions (plan : Option NamingPlanL) (tableCommentCn : PyStr)
    (originalColumns : List PyStr) : List PyStr :=
  let sq := planQuestionsOf plan
  if sq.length < 4 then
    (sq ++ buildDefaultSampleQuestions tableCommentCn originalColumns).take 4
  else sq

/-! ## Column-name resolution (data_manager.py:776-810) -/

/-- One entry of `suggestion_by_source` (data_manager.py:33-37). -/
structure NamingColumnPlanL where
  column_name_en : PyStr
  column_comment_cn : PyStr
  source_name : PyStr
deriving DecidableEq

/-- The `suggestion_by_source` loop (data_manager.py:776-787).  Each
item must expose `.get` — a non-dict item raises `AttributeError`,
which propagates to the surrounding `try` of `import_uploaded_file`
and fails the whole import (the `.error` case; the message models
`str(e)`). -/
def buildSuggestionsAux : List JValue → List (PyStr × NamingColumnPlanL) →
    Except PyStr (List (PyStr × NamingColumnPlanL))
  | [], acc => .ok acc
  | item :: rest, acc =>
    match item with
    | .jobj fields =>
      let sourceName := match jsonDictGet "source_name".data fields with
        | some v => strOfJValue v
        | none => []
      let columnNameEn := match jsonDictGet "column_name_en".data fields with
        | some v => strOfJValue v
        | none => []
      let columnCommentCn := match jsonDictGet "column_comment_cn".data fields with
        | some v => strOfJValue v
        | none => []
      if !sourceName.isEmpty && !columnNameEn.isEmpty then
        buildSuggestionsAux rest (alistInsert sourceName
          ⟨columnNameEn,
            (if columnCommentCn.isEmpty then sourceName else columnCommentCn),
            sourceName⟩ acc)
      else buildSuggestionsAux rest acc
    | _ => .error "AttributeError: object has no attribute get".data

def buildSuggestions (plan : Option NamingPlanL) :
    Except PyStr (List (PyStr × NamingColumnPlanL)) :=
  match plan with
  | none => .ok []
  | some p => buildSuggestionsAux p.columns []

/-- The column-renaming loop (data_manager.py:789-810): sanitize the
suggested (else original) name with fallback `col_<idx+1>` and
`col` as the digit prefix, then deduplicate against the names already
assigned in this ingestion by appending `_2`, `_3`, … (the same loop
shape as the table-name resolver). -/
def resolveColumnsAux (sugg : List (PyStr × NamingColumnPlanL)) :
    Nat → List PyStr → List PyStr →
    List PyStr × List (PyStr × PyStr) × List (PyStr × PyStr)
  | _, _, [] => ([], [], [])
  | idx, used, sourceCol :: rest =>
    let target0 := sanitizeSqlIdentifier
      (match alistGet sourceCol sugg with
       | some sg => sg.column_name_en
       | none => sourceCol)
      ("col_".data ++ natStr (idx + 1)) "col".data
    let target := genUniqueFrom (fun s => decide (s ∈ used)) target0 (used.length + 1) 1
    let restResolved := resolveColumnsAux sugg (idx + 1) (target :: used) rest
    (target :: restResolved.1,
     (target, (match alistGet sourceCol sugg with
       | some sg => sg.column_comment_cn
       | none => sourceCol)) :: restResolved.2.1,
     (target, sourceCol) :: restResolved.2.2)

def resolveColumns (sugg : List (PyStr × NamingColumnPlanL)) (cols : List PyStr) :
    List PyStr × List (PyStr × PyStr) × List (PyStr × PyStr) :=
  resolveColumnsAux sugg 0 [] cols

/-! ## Filenames (data_manager.py:402-407, 738-739) -/

/-- `os.path.basename` (POSIX). -/
def pyBasename (s : PyStr) : PyStr :=
  (s.reverse.takeWhile (fun c => !(c == '/'))).reverse

/-- The stem part of `os.path.splitext`: cut at the last `.` unless
only dots precede it. -/
def pySplitextStem (s : PyStr) : PyStr :=
  match rfindCharIdx '.' s with
  | none => s
  | some i => if (s.take i).all (fun c => c == '.') then s else s.take i

/-- `DataManager._build_filename_table_base` (data_manager.py:402-407). -/
def buildFilenameTableBase (filename : PyStr) : PyStr :=
  sanitizeSqlIdentifier (pySplitextStem (pyBasename filename))
    "uploaded_table".data "uploaded".data

/-! ## Column statistics (data_manager.py:816-833) -/

/-- `df[col].tolist()` by position (the renamed headers are pairwise
distinct, so name lookup is positional). -/
def columnValuesAt (rows : List (List CellValue)) (i : Nat) : List CellValue :=
  rows.map (fun r => r.getD i CellValue.vNone)

/-- `pd.Series(values).nunique(dropna=False)`: distinct values with
nulls counted as one class. -/
def countDistinct (vs : List CellValue) : Nat :=
  (vs.foldl (fun acc v => if v ∈ acc then acc else v :: acc) []).length

/-- One element of the `column_info` report array
(data_manager.py:823-833).  `_convert_scalar_numpy_to_native` is the
identity on the already-native `CellValue` model. -/
structure ColumnInfo where
  name : PyStr
  ctype : PyStr
  nullable : Bool
  unique_values : Nat
  sample_values : List CellValue
  comment_cn : Option PyStr
  original_name : Option PyStr
deriving DecidableEq

def buildColumnInfo (floatOk : PyStr → Bool) (dateOk : CellValue → Bool)
    (rows : List (List CellValue)) :
    Nat → List PyStr → List (PyStr × PyStr) → List (PyStr × PyStr) → List ColumnInfo
  | _, [], _, _ => []
  | idx, col :: rest, comments, originals =>
    let values := columnValuesAt rows idx
    let nonNullValues := values.filter (fun v => !(v == CellValue.vNone))
    ⟨col, inferColumnType floatOk dateOk values,
      decide (nonNullValues.length < values.length), countDistinct values,
      nonNullValues.take 5, alistGet col comments, alistGet col originals⟩ ::
      buildColumnInfo floatOk dateOk rows (idx + 1) rest comments originals

/-! ## The ingestion pipeline `DataManager.import_uploaded_file`
(data_manager.py:717-866) -/

/-- The structured result of `import_uploaded_file`
(data_manager.py:854-866). -/
inductive ImportResult where
  | failure (error : PyStr)
  | success (table_name table_comment_cn : PyStr) (headers : List PyStr)
      (sample_questions : List PyStr) (column_comments : List (PyStr × PyStr))
      (column_info : List ColumnInfo) (total_columns : Nat) (estimated_rows : Nat)
deriving DecidableEq

def ImportResult.isSuccess : ImportResult → Bool
  | .success .. => true
  | .failure _ => false

def ImportResult.tableName? : ImportResult → Option PyStr
  | .success tn _ _ _ _ _ _ _ => some tn
  | .failure _ => none

def ImportResult.sampleQuestionsOf : ImportResult → List PyStr
  | .success _ _ _ sq _ _ _ _ => sq
  | .failure _ => []

/-- The environment of one `import_uploaded_file` call: the outcomes
of every external, fallible step.  `parseResult` is the outcome of
`pd.read_csv`/`pd.read_excel` (an `.error` is the raised exception's
message), `llmRaw` the oracle call outcome, `writeErr` an exception
from `df.to_sql`, and `metaWriteOk = false` a failing registry
transaction. -/
structure ImportEnv where
  engineReady : Bool
  parseResult : Except PyStr Frame
  llmConfigured : Bool
  llmRaw : Except PyStr PyStr
  floatOk : PyStr → Bool
  dateOk : CellValue → Bool
  writeErr : Option PyStr
  metaWriteOk : Bool

/-- `filename or "uploaded_file"` (data_manager.py:738): a missing or
empty filename falls back. -/
def importSafeFilename : Option PyStr → PyStr
  | some f => if f.isEmpty then "uploaded_file".data else f
  | none => "uploaded_file".data

/-- `(naming_plan.get("table_comment_cn") ... ) or safe_filename_stem`
(data_manager.py:755-759): an absent plan or an empty comment falls
back to the filename stem. -/
def importTableComment (plan : Option NamingPlanL) (stem : PyStr) : PyStr :=
  match plan with
  | some p => if p.table_comment_cn.isEmpty then stem else p.table_comment_cn
  | none => stem

/-- `table_name_from_llm or self._build_filename_table_base(...)`
(data_manager.py:760-762). -/
def importBaseName (plan : Option NamingPlanL) (safeFilename : PyStr) : PyStr :=
  let t := match plan with
    | some p => p.table_name_en
    | none => []
  if t.isEmpty then buildFilenameTableBase safeFilename else t

/-- The body of the `try` block after a successful, non-empty parse
(data_manager.py:738-864). -/
def importCore (env : ImportEnv) (st : DMState) (df : Frame)
    (filename : Option PyStr) : DMState × ImportResult :=
  let safeFilename := importSafeFilename filename
  let safeFilenameStem := pySplitextStem (pyBasename safeFilename)
  let originalColumns := df.header
  let plan := generateNamingPlan env.llmConfigured env.llmRaw originalColumns
  let tableCommentCn := importTableComment plan safeFilenameStem
  let tableName := generateUniqueTableName
    (alistKeys st.metadata ++ alistKeys st.physical)
    (importBaseName plan safeFilename)
  let sampleQuestions := computeSampleQuestions plan tableCommentCn originalColumns
  match buildSuggestions plan with
  | .error e => (st, .failure e)
  | .ok suggestionBySource =>
    let resolved := resolveColumns suggestionBySource originalColumns
    let renamedColumns := resolved.1
    let columnComments := resolved.2.1
    let columnOriginalNames := resolved.2.2
    match env.writeErr with
    | some e => (st, .failure e)
    | none =>
      let df2 : Frame := ⟨renamedColumns, df.cells⟩
      let columnInfo := buildColumnInfo env.floatOk env.dateOk df2.cells 0
        renamedColumns columnComments columnOriginalNames
      let entry : TableMetadataDict :=
        ⟨tableCommentCn, "用户上传的文件（已合并入主数据库）".data, renamedColumns,
          df.cells.length, "upload".data, tableCommentCn, columnComments,
          columnOriginalNames, sampleQuestions⟩
      let st1 : DMState :=
        ⟨st.dataCache, alistInsert tableName entry st.metadata,
          alistInsert tableName df2 st.physical, st.registry, st.metaReady⟩
      let st2 := saveTableMetadata env.metaWriteOk st1 tableName tableCommentCn
        columnComments columnOriginalNames sampleQuestions
      (st2, .success tableName tableCommentCn renamedColumns sampleQuestions
        columnComments columnInfo renamedColumns.length df.cells.length)

def supportedExcelTypes : List PyStr := ["excel".data, "xlsx".data, "xls".data]

/-- `DataManager.import_uploaded_file(file_content, file_type,
filename)` (data_manager.py:717-866).  The raw bytes are represented
by their parse outcome in the environment. -/
def importUploadedFile (env : ImportEnv) (st : DMState) (fileType : PyStr)
    (filename : Option PyStr) : DMState × ImportResult :=
  if !env.engineReady then (st, .failure "数据库引擎未初始化".data)
  else if fileType = "csv".data ∨ fileType ∈ supportedExcelTypes then
    match env.parseResult with
    | .error e => (st, .failure e)
    | .ok df =>
      if df.emptyFrame then (st, .failure "Uploaded file is empty".data)
      else importCore env st df filename
  else (st, .failure ("Unsupported file type: ".data ++ fileType))

/-! ## `DataManager.delete_table` (data_manager.py:868-888) -/

inductive DeleteResult where
  | ok (message : PyStr)
  | err (error : PyStr)
deriving DecidableEq

def DeleteResult.isErr : DeleteResult → Bool
  | .err _ => true
  | .ok _ => false

/-- Environment of one `delete_table` call: `dropErr` injects an
exception raised by the `DROP TABLE` transaction, `metaDeleteOk =
false` a failing registry-delete transaction (whose exception
`_delete_table_metadata` swallows itself). -/
structure DeleteEnv where
  engineReady : Bool
  dropErr : Option PyStr
  metaDeleteOk : Bool
deriving DecidableEq

/-- `DataManager.delete_table(table_name)` (data_manager.py:868-888):
error when the engine is absent; error when the name is not in the
in-memory catalog (even if physically present); then the physical
drop — an exception there is caught with no state touched; then cache
purge, catalog purge, registry purge, success message. -/
def deleteTable (env : DeleteEnv) (st : DMState) (tableName : PyStr) :
    DMState × DeleteResult :=
  if !env.engineReady then (st, .err "数据库引擎未初始化".data)
  else if (alistGet tableName st.metadata).isNone then (st, .err "表不存在".data)
  else
    match env.dropErr with
    | some e => (st, .err e)
    | none =>
      let st1 : DMState :=
        ⟨alistErase tableName st.dataCache, alistErase tableName st.metadata,
          alistErase tableName st.physical, st.registry, st.metaReady⟩
      let st2 := deleteTableMetadata env.metaDeleteOk st1 tableName
      (st2, .ok ("表 ".data ++ tableName ++ " 已删除".data))

/-! ## Startup scan and table detail (data_manager.py:135-203, 373-400) -/

structure ScanEnv where
  engineOk : Bool
  readOk : Bool
deriving DecidableEq

/-- The catalog entry built for one physical table during
`_scan_database_tables` (data_manager.py:150-195). -/
def scanEntryFor (readOk : Bool) (st : DMState) (tableName : PyStr) (f : Frame) :
    TableMetadataDict :=
  let record := getTableMetadataRecord readOk st tableName
  let tc := match record with
    | some r => if r.table_comment_cn.isEmpty then tableName else r.table_comment_cn
    | none => tableName
  let cc := match record with
    | some r => r.column_comments
    | none => f.header.map (fun c => (c, c))
  let con := match record with
    | some r => r.column_original_names
    | none => f.header.map (fun c => (c, c))
  let sq := match record with
    | some r => r.sample_questions
    | none => []
  ⟨tc, tableName ++ " 数据表".data, f.header, f.cells.length, "db".data, tc, cc, con, sq⟩

/-- `DataManager._scan_database_tables` (data_manager.py:135-203):
enumerate the physical tables and install a catalog entry for each,
preferring registry metadata when a record exists.  `engineOk = false`
models the engine-creation failure (caught; nothing scanned). -/
def scanDatabaseTables (env : ScanEnv) (st : DMState) : DMState :=
  if !env.engineOk then st
  else st.physical.foldl (fun acc tf =>
    ⟨acc.dataCache,
      alistInsert tf.1 (scanEntryFor env.readOk acc tf.1 tf.2) acc.metadata,
      acc.physical, acc.registry, acc.metaReady⟩) st

/-- `DataManager.get_table_info(table_name)` (data_manager.py:373-400):
absent when the name is not in the catalog; otherwise reconcile the
entry against the registry record (when one is readable), overwriting
comment, per-column maps and sample questions wholesale, and return
the (updated) entry. -/
def getTableInfo (readOk : Bool) (st : DMState) (tableName : PyStr) :
    DMState × Option TableMetadataDict :=
  match alistGet tableName st.metadata with
  | none => (st, none)
  | some entry =>
    match getTableMetadataRecord readOk st tableName with
    | none => (st, some entry)
    | some r =>
      let entry2 : TableMetadataDict :=
        ⟨r.table_comment_cn, entry.description, entry.columns, entry.rows, entry.source,
          r.table_comment_cn, r.column_comments, r.column_original_names,
          r.sample_questions⟩
      (⟨st.dataCache, alistInsert tableName entry2 st.metadata, st.physical, st.registry,
        st.metaReady⟩, some entry2)

/-! ## Association-list and filter lemmas -/

theorem alistGet_insert_self {α : Type} (k : PyStr) (v : α) :
    ∀ l : List (PyStr × α), alistGet k (alistInsert k v l) = some v := by
  intro l
  induction l with
  | nil => simp [alistInsert, alistGet]
  | cons kv rest ih =>
    by_cases h : kv.1 = k
    · simp [alistInsert, alistGet, h]
    · simp only [alistInsert, if_neg h]
      simp only [alistGet, if_neg h]
      exact ih

theorem alistGet_insert_ne {α : Type} {u k : PyStr} (v : α) (h : u ≠ k) :
    ∀ l : List (PyStr × α), alistGet u (alistInsert k v l) = alistGet u l := by
  intro l
  induction l with
  | nil =>
    simp only [alistInsert, alistGet, if_neg (show ¬k = u from fun he => h he.symm)]
  | cons kv rest ih =>
    by_cases hk : kv.1 = k
    · simp only [alistInsert, if_pos hk]
      simp only [alistGet, if_neg (show ¬k = u from fun he => h he.symm),
        if_neg (show ¬kv.1 = u from fun he => h (he ▸ hk))]
    · simp only [alistInsert, if_neg hk]
      by_cases hu : kv.1 = u
      · simp only [alistGet, if_pos hu]
      · simp only [alistGet, if_neg hu]
        exact ih

theorem alistGet_erase_ne {α : Type} {u k : PyStr} (h : u ≠ k) :
    ∀ l : List (PyStr × α), alistGet u (alistErase k l) = alistGet u l := by
  intro l
  induction l with
  | nil => rfl
  | cons kv rest ih =>
    by_cases hk : kv.1 = k
    · simp only [alistErase, if_pos hk]
      simp only [alistGet, if_neg (fun he : kv.1 = u => h (hk ▸ he).symm)]
    · simp only [alistErase, if_neg hk]
      by_cases hu : kv.1 = u
      · simp [alistGet, hu]
      · simp only [alistGet, if_neg hu]
        exact ih

theorem filter_key_of_filter_not_key {β : Type} {u k : PyStr} (h : u ≠ k)
    (l : List (PyStr × β)) :
    (l.filter (fun r => !(r.1 == k))).filter (fun r => r.1 == u) =
      l.filter (fun r => r.1 == u) := by
  rw [List.filter_filter]
  apply List.filter_congr
  intro a _
  by_cases hu : a.1 = u
  · have hk : (a.1 == k) = false := beq_eq_false_iff_ne.mpr (fun he => h (hu ▸ he))
    simp only [hk, Bool.not_false, Bool.and_true]
  · simp [beq_eq_false_iff_ne.mpr hu]

/-! ## C6 and C10: `delete_table` -/

/-- **C6.**  `delete_table` errors on a name unknown to the catalog
(even if physically present) without mutating any state; a failure of
the physical-drop step returns an error with the data cache, the
catalog and the registry all untouched; and on a successful drop the
cache/catalog purge happens on the dropped state and the registry is
purged last (data_manager.py:868-888). -/
theorem delete_table_error_atomicity (env : DeleteEnv) (st : DMState) (tableName : PyStr) :
    (alistGet tableName st.metadata = none →
      (deleteTable env st tableName).1 = st ∧
        (deleteTable env st tableName).2.isErr = true) ∧
    (∀ e, env.engineReady = true → env.dropErr = some e →
      alistGet tableName st.metadata ≠ none →
      deleteTable env st tableName = (st, .err e)) ∧
    (env.engineReady = true → env.dropErr = none →
      alistGet tableName st.metadata ≠ none →
      deleteTable env st tableName =
        (deleteTableMetadata env.metaDeleteOk
          ⟨alistErase tableName st.dataCache, alistErase tableName st.metadata,
            alistErase tableName st.physical, st.registry, st.metaReady⟩ tableName,
         .ok ("表 ".data ++ tableName ++ " 已删除".data))) := by
  refine ⟨?_, ?_, ?_⟩
  · intro h
    cases he : env.engineReady with
    | false => simp [deleteTable, he, DeleteResult.isErr]
    | true => simp [deleteTable, he, h, DeleteResult.isErr]
  · intro e he hdrop hmem
    have hsome : (alistGet tableName st.metadata).isNone = false := by
      cases hx : alistGet tableName st.metadata with
      | none => exact absurd hx hmem
      | some v => rfl
    simp [deleteTable, he, hsome, hdrop]
  · intro he hdrop hmem
    have hsome : (alistGet tableName st.metadata).isNone = false := by
      cases hx : alistGet tableName st.metadata with
      | none => exact absurd hx hmem
      | some v => rfl
    simp [deleteTable, he, hsome, hdrop]

/-- Witness for C6 at a concrete state. -/
theorem delete_table_error_atomicity_witness :
    ((deleteTable ⟨true, none, true⟩ ⟨[], [], [], ⟨[], [], []⟩, true⟩ "t".data).1 =
        ⟨[], [], [], ⟨[], [], []⟩, true⟩ ∧
      (deleteTable ⟨true, none, true⟩ ⟨[], [], [], ⟨[], [], []⟩, true⟩ "t".data).2.isErr =
        true) :=
  (delete_table_error_atomicity ⟨true, none, true⟩ ⟨[], [], [], ⟨[], [], []⟩, true⟩
    "t".data).1 (by decide)

/-- **C10.**  `delete_table` changes at most the state keyed by the
given name: catalog entries, cached frames and registry rows of every
other table are unchanged, whether the call succeeds or errors
(data_manager.py:868-888, 567-585). -/
theorem delete_table_frame_condition (env : DeleteEnv) (st : DMState)
    (tableName u : PyStr) (h : u ≠ tableName) :
    alistGet u (deleteTable env st tableName).1.metadata = alistGet u st.metadata ∧
    alistGet u (deleteTable env st tableName).1.dataCache = alistGet u st.dataCache ∧
    (deleteTable env st tableName).1.registry.tableRows.filter (fun r => r.1 == u) =
      st.registry.tableRows.filter (fun r => r.1 == u) ∧
    (deleteTable env st tableName).1.registry.columnRows.filter (fun r => r.1 == u) =
      st.registry.columnRows.filter (fun r => r.1 == u) ∧
    (deleteTable env st tableName).1.registry.questionRows.filter (fun r => r.1 == u) =
      st.registry.questionRows.filter (fun r => r.1 == u) := by
  cases he : env.engineReady with
  | false => simp [deleteTable, he]
  | true =>
    cases hx : (alistGet tableName st.metadata).isNone with
    | true => simp [deleteTable, he, hx]
    | false =>
      cases hdrop : env.dropErr with
      | some e => simp [deleteTable, he, hx, hdrop]
      | none =>
        have hmeta := alistGet_erase_ne (α := TableMetadataDict) h st.metadata
        have hcache := alistGet_erase_ne (α := Frame) h st.dataCache
        cases hmr : st.metaReady with
        | false =>
          simp [deleteTable, he, hx, hdrop, deleteTableMetadata, hmr, hmeta, hcache]
        | true =>
          cases hdel : env.metaDeleteOk with
          | false =>
            simp [deleteTable, he, hx, hdrop, deleteTableMetadata, hmr, hdel, hmeta, hcache]
          | true =>
            simp only [deleteTable, he, Bool.not_true, Bool.false_eq_true, if_false, hx,
              hdrop, deleteTableMetadata, hmr, hdel, Bool.not_false, Bool.or_self,
              Bool.false_or, if_true]
            refine ⟨hmeta, hcache, ?_, ?_, ?_⟩
            · exact filter_key_of_filter_not_key h st.registry.tableRows
            · exact filter_key_of_filter_not_key h st.registry.columnRows
            · exact filter_key_of_filter_not_key h st.registry.questionRows

/-- Witness for C10 at a concrete state holding two tables. -/
theorem delete_table_frame_condition_witness :
    alistGet "u".data (deleteTable ⟨true, none, true⟩
        ⟨[], [("u".data, ⟨"u".data, [], [], 0, "db".data, "u".data, [], [], []⟩)],
          [], ⟨[("u".data, "c".data)], [], []⟩, true⟩ "t".data).1.metadata =
      alistGet "u".data
        ([("u".data, (⟨"u".data, [], [], 0, "db".data, "u".data, [], [], []⟩ :
          TableMetadataDict))]) ∧
    alistGet "u".data (deleteTable ⟨true, none, true⟩
        ⟨[], [("u".data, ⟨"u".data, [], [], 0, "db".data, "u".data, [], [], []⟩)],
          [], ⟨[("u".data, "c".data)], [], []⟩, true⟩ "t".data).1.dataCache =
      alistGet "u".data ([] : List (PyStr × Frame)) ∧
    (deleteTable ⟨true, none, true⟩
        ⟨[], [("u".data, ⟨"u".data, [], [], 0, "db".data, "u".data, [], [], []⟩)],
          [], ⟨[("u".data, "c".data)], [], []⟩, true⟩ "t".data).1.registry.tableRows.filter
        (fun r => r.1 == "u".data) =
      ([("u".data, "c".data)] : List (PyStr × PyStr)).filter (fun r => r.1 == "u".data) ∧
    (deleteTable ⟨true, none, true⟩
        ⟨[], [("u".data, ⟨"u".data, [], [], 0, "db".data, "u".data, [], [], []⟩)],
          [], ⟨[("u".data, "c".data)], [], []⟩, true⟩ "t".data).1.registry.columnRows.filter
        (fun r => r.1 == "u".data) =
      ([] : List (PyStr × PyStr × PyStr × PyStr)).filter (fun r => r.1 == "u".data) ∧
    (deleteTable ⟨true, none, true⟩
        ⟨[], [("u".data, ⟨"u".data, [], [], 0, "db".data, "u".data, [], [], []⟩)],
          [], ⟨[("u".data, "c".data)], [], []⟩, true⟩ "t".data).1.registry.questionRows.filter
        (fun r => r.1 == "u".data) =
      ([] : List (PyStr × Nat × PyStr)).filter (fun r => r.1 == "u".data) :=
  delete_table_frame_condition ⟨true, none, true⟩
    ⟨[], [("u".data, ⟨"u".data, [], [], 0, "db".data, "u".data, [], [], []⟩)],
      [], ⟨[("u".data, "c".data)], [], []⟩, true⟩ "t".data "u".data (by decide)

/-! ## The ingestion success path -/

theorem importUploadedFile_success_eq (env : ImportEnv) (st : DMState)
    (fileType : PyStr) (filename : Option PyStr) (df : Frame)
    (hready : env.engineReady = true)
    (hft : fileType = "csv".data ∨ fileType ∈ supportedExcelTypes)
    (hparse : env.parseResult = .ok df)
    (hne : df.emptyFrame = false) :
    importUploadedFile env st fileType filename = importCore env st df filename := by
  unfold importUploadedFile
  rw [hready, hparse]
  simp only [Bool.not_true, Bool.false_eq_true, if_false, if_pos hft, hne]

/-- The success outcome of `importCore` once the suggestion extraction
and the physical write have succeeded: the exact catalog entry, the
registry write, and the report (data_manager.py:812-864). -/
theorem importCore_success_eq (env : ImportEnv) (st : DMState) (df : Frame)
    (filename : Option PyStr) (sugg : List (PyStr × NamingColumnPlanL))
    (hsugg : buildSuggestions
      (generateNamingPlan env.llmConfigured env.llmRaw df.header) = .ok sugg)
    (hwrite : env.writeErr = none) :
    importCore env st df filename =
      (let safeFilename := importSafeFilename filename
       let plan := generateNamingPlan env.llmConfigured env.llmRaw df.header
       let tableCommentCn := importTableComment plan
         (pySplitextStem (pyBasename safeFilename))
       let tableName := generateUniqueTableName
         (alistKeys st.metadata ++ alistKeys st.physical)
         (importBaseName plan safeFilename)
       let sampleQuestions := computeSampleQuestions plan tableCommentCn df.header
       let resolved := resolveColumns sugg df.header
       let entry : TableMetadataDict :=
         ⟨tableCommentCn, "用户上传的文件（已合并入主数据库）".data, resolved.1,
           df.cells.length, "upload".data, tableCommentCn, resolved.2.1,
           resolved.2.2, sampleQuestions⟩
       let st1 : DMState :=
         ⟨st.dataCache, alistInsert tableName entry st.metadata,
           alistInsert tableName ⟨resolved.1, df.cells⟩ st.physical, st.registry,
           st.metaReady⟩
       (saveTableMetadata env.metaWriteOk st1 tableName tableCommentCn resolved.2.1
          resolved.2.2 sampleQuestions,
        .success tableName tableCommentCn resolved.1 sampleQuestions resolved.2.1
          (buildColumnInfo env.floatOk env.dateOk df.cells 0 resolved.1 resolved.2.1
            resolved.2.2)
          resolved.1.length df.cells.length)) := by
  simp only [importCore]
  rw [hsugg, hwrite]

theorem saveTableMetadata_metadata (writeOk : Bool) (st : DMState)
    (tn tc : PyStr) (cc con : List (PyStr × PyStr)) (sq : List PyStr) :
    (saveTableMetadata writeOk st tn tc cc con sq).metadata = st.metadata := by
  unfold saveTableMetadata
  cases st.metaReady <;> cases writeOk <;> simp

theorem saveTableMetadata_registry_of_fail (st : DMState)
    (tn tc : PyStr) (cc con : List (PyStr × PyStr)) (sq : List PyStr) :
    (saveTableMetadata false st tn tc cc con sq).registry = st.registry := by
  unfold saveTableMetadata
  cases st.metaReady <;> simp

/-- **C3.**  When parsing and the physical write succeed, a raised
exception inside the metadata-registry write is caught and logged
inside `_save_table_metadata`: `import_uploaded_file` still returns a
success report carrying the physical table name, the catalog entry is
installed, and the registry is simply left unchanged
(data_manager.py:433-497, 835-864). -/
theorem registry_failure_never_fails_ingestion (env : ImportEnv) (st : DMState)
    (fileType : PyStr) (filename : Option PyStr) (df : Frame)
    (sugg : List (PyStr × NamingColumnPlanL))
    (hready : env.engineReady = true)
    (hft : fileType = "csv".data ∨ fileType ∈ supportedExcelTypes)
    (hparse : env.parseResult = .ok df)
    (hne : df.emptyFrame = false)
    (hsugg : buildSuggestions
      (generateNamingPlan env.llmConfigured env.llmRaw df.header) = .ok sugg)
    (hwrite : env.writeErr = none)
    (hmw : env.metaWriteOk = false) :
    (importUploadedFile env st fileType filename).2.isSuccess = true ∧
    (importUploadedFile env st fileType filename).2.tableName? =
      some (generateUniqueTableName (alistKeys st.metadata ++ alistKeys st.physical)
        (importBaseName (generateNamingPlan env.llmConfigured env.llmRaw df.header)
          (importSafeFilename filename))) ∧
    (importUploadedFile env st fileType filename).1.registry = st.registry ∧
    (∀ tn, (importUploadedFile env st fileType filename).2.tableName? = some tn →
      (alistGet tn (importUploadedFile env st fileType filename).1.metadata).isSome =
        true) := by
  rw [importUploadedFile_success_eq env st fileType filename df hready hft hparse hne,
    importCore_success_eq env st df filename sugg hsugg hwrite]
  refine ⟨rfl, rfl, ?_, ?_⟩
  · show (saveTableMetadata env.metaWriteOk _ _ _ _ _ _).registry = st.registry
    rw [hmw]
    exact saveTableMetadata_registry_of_fail _ _ _ _ _ _
  · intro tn htn
    have htn2 : tn = generateUniqueTableName
        (alistKeys st.metadata ++ alistKeys st.physical)
        (importBaseName (generateNamingPlan env.llmConfigured env.llmRaw df.header)
          (importSafeFilename filename)) := by
      simpa [ImportResult.tableName?] using htn.symm
    subst htn2
    rw [saveTableMetadata_metadata]
    rw [alistGet_insert_self]
    rfl

/-! ## C2: exactly four sample questions -/

theorem buildDefaultSampleQuestions_length (tc : PyStr) (cols : List PyStr) :
    (buildDefaultSampleQuestions tc cols).length = 4 := rfl

theorem cleanedPlanQuestions_length_le (qs : List JValue) :
    (cleanedPlanQuestions qs).length ≤ 4 :=
  List.length_take_le 4 _

theorem take_append_four_length (a b : List PyStr) (hb : b.length = 4) :
    ((a ++ b).take 4).length = 4 := by
  rw [List.length_take, List.length_append, hb, Nat.min_def]
  split <;> omega

theorem planQuestionsOf_none : planQuestionsOf none = [] := rfl

theorem planQuestionsOf_some_none (p : NamingPlanL) (h : p.sample_questions = none) :
    planQuestionsOf (some p) = [] := by
  show (match p.sample_questions with
    | some qs => cleanedPlanQuestions qs
    | none => []) = []
  rw [h]

theorem planQuestionsOf_some_some (p : NamingPlanL) (qs : List JValue)
    (h : p.sample_questions = some qs) :
    planQuestionsOf (some p) = cleanedPlanQuestions qs := by
  show (match p.sample_questions with
    | some qs => cleanedPlanQuestions qs
    | none => []) = cleanedPlanQuestions qs
  rw [h]

theorem planQuestionsOf_length_le (plan : Option NamingPlanL) :
    (planQuestionsOf plan).length ≤ 4 := by
  cases plan with
  | none => simp [planQuestionsOf_none]
  | some p =>
    cases hq : p.sample_questions with
    | none => simp [planQuestionsOf_some_none p hq]
    | some qs =>
      rw [planQuestionsOf_some_some p qs hq]
      exact cleanedPlanQuestions_length_le qs

theorem computeSampleQuestions_length (plan : Option NamingPlanL) (tc : PyStr)
    (cols : List PyStr) : (computeSampleQuestions plan tc cols).length = 4 := by
  unfold computeSampleQuestions
  by_cases hlt : (planQuestionsOf plan).length < 4
  · rw [if_pos hlt]
    exact take_append_four_length _ _ (buildDefaultSampleQuestions_length tc cols)
  · rw [if_neg hlt]
    have := planQuestionsOf_length_le plan
    omega

theorem filter_key_of_filter_not_key_self {β : Type} (k : PyStr)
    (l : List (PyStr × β)) :
    (l.filter (fun r => !(r.1 == k))).filter (fun r => r.1 == k) = [] := by
  rw [List.filter_filter]
  rw [List.filter_congr (q := fun _ => false)
    (fun a _ => by cases h : a.1 == k <;> simp [h])]
  exact List.filter_false l

/-- **C2.**  The sample-question list of every successful ingestion
has length exactly 4: the four templated defaults when no plan exists,
and plan-provided (non-blank) questions first, padded with the
defaults, never exceeding 4, when a plan supplies fewer than 4 — and
this very list goes into the report, the catalog entry, and the
registry write (data_manager.py:610-621, 763-774, 835-852). -/
theorem sample_questions_exactly_four :
    (∀ (plan : Option NamingPlanL) (tc : PyStr) (cols : List PyStr),
      (computeSampleQuestions plan tc cols).length = 4) ∧
    (∀ (tc : PyStr) (cols : List PyStr),
      computeSampleQuestions none tc cols = buildDefaultSampleQuestions tc cols) ∧
    (∀ (p : NamingPlanL) (tc : PyStr) (cols : List PyStr) (qs : List JValue),
      p.sample_questions = some qs →
      (cleanedPlanQuestions qs).length < 4 →
      computeSampleQuestions (some p) tc cols =
        cleanedPlanQuestions qs ++
          (buildDefaultSampleQuestions tc cols).take
            (4 - (cleanedPlanQuestions qs).length)) ∧
    (∀ (env : ImportEnv) (st : DMState) (fileType : PyStr) (filename : Option PyStr)
      (df : Frame) (sugg : List (PyStr × NamingColumnPlanL)),
      env.engineReady = true →
      (fileType = "csv".data ∨ fileType ∈ supportedExcelTypes) →
      env.parseResult = .ok df →
      df.emptyFrame = false →
      buildSuggestions (generateNamingPlan env.llmConfigured env.llmRaw df.header) =
        .ok sugg →
      env.writeErr = none →
      ((importUploadedFile env st fileType filename).2.sampleQuestionsOf =
        computeSampleQuestions
          (generateNamingPlan env.llmConfigured env.llmRaw df.header)
          (importTableComment (generateNamingPlan env.llmConfigured env.llmRaw df.header)
            (pySplitextStem (pyBasename (importSafeFilename filename)))) df.header ∧
      (importUploadedFile env st fileType filename).2.sampleQuestionsOf.length = 4 ∧
      (∀ tn e, (importUploadedFile env st fileType filename).2.tableName? = some tn →
        alistGet tn (importUploadedFile env st fileType filename).1.metadata = some e →
        e.sample_questions =
          (importUploadedFile env st fileType filename).2.sampleQuestionsOf) ∧
      (st.metaReady = true → env.metaWriteOk = true →
        ∀ tn, (importUploadedFile env st fileType filename).2.tableName? = some tn →
          (importUploadedFile env st fileType filename).1.registry.questionRows.filter
              (fun r => r.1 == tn) =
            (enumFrom 1
              ((importUploadedFile env st fileType filename).2.sampleQuestionsOf)).map
              (fun iq => (tn, iq.1, iq.2))))) := by
  refine ⟨computeSampleQuestions_length, ?_, ?_, ?_⟩
  · intro tc cols
    unfold computeSampleQuestions
    rw [planQuestionsOf_none]
    simp only [List.length_nil, if_pos (by omega : (0:Nat) < 4), List.nil_append]
    exact List.take_of_length_le (le_of_eq (buildDefaultSampleQuestions_length tc cols))
  · intro p tc cols qs hq hlt
    unfold computeSampleQuestions
    rw [planQuestionsOf_some_some p qs hq, if_pos hlt, List.take_append_eq_append_take,
      List.take_of_length_le (le_of_lt hlt)]
  · intro env st fileType filename df sugg hready hft hparse hne hsugg hwrite
    rw [importUploadedFile_success_eq env st fileType filename df hready hft hparse hne,
      importCore_success_eq env st df filename sugg hsugg hwrite]
    refine ⟨rfl, computeSampleQuestions_length _ _ _, ?_, ?_⟩
    · intro tn e htn he
      have htn2 : tn = generateUniqueTableName
          (alistKeys st.metadata ++ alistKeys st.physical)
          (importBaseName (generateNamingPlan env.llmConfigured env.llmRaw df.header)
            (importSafeFilename filename)) := by
        simpa [ImportResult.tableName?] using htn.symm
      subst htn2
      rw [saveTableMetadata_metadata, alistGet_insert_self] at he
      have he2 := he.symm
      injection he2 with he3
      rw [he3]
      rfl
    · intro hmr hmw tn htn
      have htn2 : tn = generateUniqueTableName
          (alistKeys st.metadata ++ alistKeys st.physical)
          (importBaseName (generateNamingPlan env.llmConfigured env.llmRaw df.header)
            (importSafeFilename filename)) := by
        simpa [ImportResult.tableName?] using htn.symm
      subst htn2
      show ((saveTableMetadata env.metaWriteOk _ _ _ _ _ _).registry.questionRows.filter
        _) = _
      rw [hmw]
      unfold saveTableMetadata
      simp only [hmr, Bool.not_true, Bool.false_eq_true, if_false]
      rw [List.filter_append, filter_key_of_filter_not_key_self]
      rw [List.nil_append]
      rw [List.filter_eq_self.mpr (by
        intro a ha
        obtain ⟨iq, hiq, rfl⟩ := List.mem_map.mp ha
        simp)]
      rw [List.take_of_length_le (le_of_eq (computeSampleQuestions_length _ _ _))]
      rfl

/-- Witness for C2: an absent plan, and a plan supplying one non-blank
question. -/
theorem sample_questions_exactly_four_witness :
    computeSampleQuestions none "t".data ["a".data] =
      buildDefaultSampleQuestions "t".data ["a".data] ∧
    computeSampleQuestions (some ⟨"t".data, "c".data, [], some [.jstr "q1".data]⟩)
        "t".data ["a".data] =
      cleanedPlanQuestions [.jstr "q1".data] ++
        (buildDefaultSampleQuestions "t".data ["a".data]).take
          (4 - (cleanedPlanQuestions [.jstr "q1".data]).length) :=
  ⟨sample_questions_exactly_four.2.1 "t".data ["a".data],
   sample_questions_exactly_four.2.2.1 ⟨"t".data, "c".data, [], some [.jstr "q1".data]⟩
     "t".data ["a".data] [.jstr "q1".data] rfl (by decide)⟩

/-! ## C5: invalid naming plans are discarded wholesale -/

def wEnvC3 : ImportEnv :=
  ⟨true, .ok ⟨["a".data], [[.vStr "1".data]]⟩, false, .ok [],
    (fun _ => false), (fun _ => false), none, false⟩

def wStEmpty : DMState := ⟨[], [], [], ⟨[], [], []⟩, true⟩

def wDfC3 : Frame := ⟨["a".data], [[.vStr "1".data]]⟩

/-- Witness for C3 at a concrete call (no oracle, registry write
failing). -/
theorem registry_failure_never_fails_ingestion_witness :
    (importUploadedFile wEnvC3 wStEmpty "csv".data (some "f.csv".data)).2.isSuccess =
      true ∧
    (importUploadedFile wEnvC3 wStEmpty "csv".data (some "f.csv".data)).2.tableName? =
      some (generateUniqueTableName
        (alistKeys wStEmpty.metadata ++ alistKeys wStEmpty.physical)
        (importBaseName
          (generateNamingPlan wEnvC3.llmConfigured wEnvC3.llmRaw wDfC3.header)
          (importSafeFilename (some "f.csv".data)))) ∧
    (importUploadedFile wEnvC3 wStEmpty "csv".data (some "f.csv".data)).1.registry =
      wStEmpty.registry ∧
    (∀ tn, (importUploadedFile wEnvC3 wStEmpty "csv".data
        (some "f.csv".data)).2.tableName? = some tn →
      (alistGet tn (importUploadedFile wEnvC3 wStEmpty "csv".data
        (some "f.csv".data)).1.metadata).isSome = true) :=
  registry_failure_never_fails_ingestion wEnvC3 wStEmpty "csv".data
    (some "f.csv".data) wDfC3 [] rfl (Or.inl rfl) rfl rfl rfl rfl rfl

theorem generateNamingPlan_eq_none_of_invalid (raw : PyStr)
    (h : ((safeJsonLoads raw).bind validateNamingPlan).isNone = true) :
    ∀ cols : List PyStr, generateNamingPlan true (.ok raw) cols = none := by
  intro cols
  unfold generateNamingPlan
  by_cases hc : cols.isEmpty
  · simp [hc]
  · simp only [Bool.not_true, Bool.false_or, hc, Bool.false_eq_true, if_false]
    cases hs : safeJsonLoads raw with
    | none => rfl
    | some d =>
      rw [hs] at h
      simpa using h

/-- The environment with the oracle switched off and everything else
unchanged. -/
def envWithoutLlm (env : ImportEnv) : ImportEnv :=
  ⟨env.engineReady, env.parseResult, false, env.llmRaw, env.floatOk, env.dateOk,
    env.writeErr, env.metaWriteOk⟩

theorem importCore_plan_none_eq (env : ImportEnv) (st : DMState) (df : Frame)
    (filename : Option PyStr)
    (hplan : generateNamingPlan env.llmConfigured env.llmRaw df.header = none) :
    importCore env st df filename = importCore (envWithoutLlm env) st df filename := by
  have h2 : generateNamingPlan (envWithoutLlm env).llmConfigured
      (envWithoutLlm env).llmRaw df.header = none := by
    simp [generateNamingPlan, envWithoutLlm]
  simp only [importCore]
  rw [hplan, h2]
  rfl

/-- **C5.**  A naming plan failing the required-field type checks is
discarded wholesale and never partially applied: the client returns
absent (also when the oracle call itself raises, never propagating),
and the whole ingestion then behaves exactly as if no oracle were
configured — local default names, comments and questions throughout
(data_manager.py:664-686, 746-811). -/
theorem invalid_plan_discarded_wholesale :
    (∀ (cols : List PyStr) (err : PyStr),
      generateNamingPlan true (.error err) cols = none) ∧
    (∀ (cols : List PyStr) (raw : PyStr),
      (safeJsonLoads raw).isSome = true →
      ((safeJsonLoads raw).bind validateNamingPlan).isNone = true →
      generateNamingPlan true (.ok raw) cols = none) ∧
    (∀ (env : ImportEnv) (st : DMState) (fileType : PyStr) (filename : Option PyStr),
      (∀ df : Frame, env.parseResult = .ok df →
        generateNamingPlan env.llmConfigured env.llmRaw df.header = none) →
      importUploadedFile env st fileType filename =
        importUploadedFile (envWithoutLlm env) st fileType filename) := by
  refine ⟨?_, ?_, ?_⟩
  · intro cols err
    unfold generateNamingPlan
    by_cases hc : cols.isEmpty <;> simp [hc]
  · intro cols raw _ h
    exact generateNamingPlan_eq_none_of_invalid raw h cols
  · intro env st fileType filename hplan
    unfold importUploadedFile
    rw [show (envWithoutLlm env).engineReady = env.engineReady from rfl,
      show (envWithoutLlm env).parseResult = env.parseResult from rfl]
    split
    · rfl
    · split
      · split
        · rfl
        · rename_i df heq
          split
          · rfl
          · exact importCore_plan_none_eq env st df filename (hplan df heq)
      · rfl

def wBadRaw : PyStr := "\x7b\"table_name_en\": \"t\"\x7d".data

def wEnvC5 : ImportEnv :=
  ⟨true, .ok wDfC3, true, .ok wBadRaw, (fun _ => false), (fun _ => false), none, true⟩

/-- Witness for C5: an oracle reply missing `table_comment_cn` is a
parseable JSON object that fails validation; the client yields absent
and the ingestion equals the oracle-free run. -/
theorem invalid_plan_discarded_wholesale_witness :
    generateNamingPlan true (.ok wBadRaw) ["a".data] = none ∧
    importUploadedFile wEnvC5 wStEmpty "csv".data (some "f.csv".data) =
      importUploadedFile (envWithoutLlm wEnvC5) wStEmpty "csv".data
        (some "f.csv".data) :=
  ⟨invalid_plan_discarded_wholesale.2.1 ["a".data] wBadRaw (by decide) (by decide),
   invalid_plan_discarded_wholesale.2.2 wEnvC5 wStEmpty "csv".data
     (some "f.csv".data)
     (fun df hdf => by
       injection hdf with h
       subst h
       exact Option.isNone_iff_eq_none.mp (by decide))⟩

/-! ## C9: the catalog-entry invariant -/

/-- The spec's entry invariant: comment and original-name keys are
catalogued columns; at most 4 sample questions. -/
def entryInvariant (e : TableMetadataDict) : Bool :=
  e.column_comments.all (fun kv => decide (kv.1 ∈ e.columns)) &&
  e.column_original_names.all (fun kv => decide (kv.1 ∈ e.columns)) &&
  decide (e.sample_questions.length ≤ 4)

/-- The registry rows of a table agree with a column list: every
column row names one of the columns, and there are at most 4 question
rows.  The registry contents the application itself writes always
satisfy this for the live columns; externally mutated registries need
not. -/
def regCoherent (reg : RegistryState) (tableName : PyStr) (cols : List PyStr) : Bool :=
  (reg.columnRows.filter (fun r => r.1 == tableName)).all
    (fun r => decide (r.2.1 ∈ cols)) &&
  decide ((reg.questionRows.filter (fun r => r.1 == tableName)).length ≤ 4)

def cexEntry : TableMetadataDict :=
  ⟨"t".data, "d".data, ["a".data], 0, "db".data, "t".data,
    [("a".data, "a".data)], [("a".data, "a".data)], []⟩

/-- A state whose registry carries a column row for a column (`b`)
that the catalogued table does not have. -/
def cexState : DMState :=
  ⟨[], [("t".data, cexEntry)], [],
    ⟨[("t".data, "c".data)], [("t".data, "b".data, "cmt".data, "b".data)], []⟩, true⟩

/-- **C9, counterexample.**  `get_table_info` overwrites
`column_comments`/`column_original_names` wholesale from the registry
record without filtering to the live columns: starting from an entry
satisfying the invariant, the reconciled entry maps a column (`b`)
that is not in `column_names`, so the operation does not preserve the
invariant (data_manager.py:373-400). -/
theorem catalog_invariant_claim_false :
    entryInvariant cexEntry = true ∧
    ((getTableInfo true cexState "t".data).2.map entryInvariant) = some false := by
  constructor <;> decide

/-! ### The amended invariant-preservation theorem -/

theorem mem_alistInsert {β : Type} {kv : PyStr × β} {k : PyStr} {v : β} :
    ∀ {l : List (PyStr × β)}, kv ∈ alistInsert k v l → kv = (k, v) ∨ kv ∈ l := by
  intro l
  induction l with
  | nil => intro h; simpa [alistInsert] using h
  | cons kv2 rest ih =>
    intro h
    by_cases hk : kv2.1 = k
    · rw [alistInsert, if_pos hk] at h
      rcases List.mem_cons.mp h with h | h
      · exact Or.inl h
      · exact Or.inr (List.mem_cons_of_mem _ h)
    · rw [alistInsert, if_neg hk] at h
      rcases List.mem_cons.mp h with h | h
      · exact Or.inr (h ▸ List.mem_cons_self ..)
      · rcases ih h with h | h
        · exact Or.inl h
        · exact Or.inr (List.mem_cons_of_mem _ h)

theorem mem_foldl_alistInsert {ρ β : Type} (f : ρ → PyStr) (g : ρ → β) :
    ∀ (rows : List ρ) (acc : List (PyStr × β)) (kv : PyStr × β),
      kv ∈ rows.foldl (fun a r => alistInsert (f r) (g r) a) acc →
      kv.1 ∈ rows.map f ∨ kv ∈ acc := by
  intro rows
  induction rows with
  | nil => intro acc kv h; exact Or.inr h
  | cons r rest ih =>
    intro acc kv h
    rw [List.foldl_cons] at h
    rcases ih _ kv h with h | h
    · exact Or.inl (List.mem_cons_of_mem _ h)
    · rcases mem_alistInsert h with h | h
      · exact Or.inl (by rw [h]; simp)
      · exact Or.inr h

theorem length_insertByOrder (row : PyStr × Nat × PyStr) :
    ∀ l : List (PyStr × Nat × PyStr), (insertByOrder row l).length = l.length + 1 := by
  intro l
  induction l with
  | nil => rfl
  | cons r rest ih =>
    unfold insertByOrder
    by_cases h : row.2.1 ≤ r.2.1
    · rw [if_pos h]; simp
    · rw [if_neg h]
      simp only [List.length_cons, ih]

theorem length_sortByOrder (rows : List (PyStr × Nat × PyStr)) :
    (sortByOrder rows).length = rows.length := by
  unfold sortByOrder
  induction rows with
  | nil => rfl
  | cons r rest ih =>
    rw [List.foldr_cons, length_insertByOrder, ih]
    rfl

/-- What a read registry record contains, under coherence with a
column list. -/
theorem metaRecord_spec {readOk : Bool} {st : DMState} {tn : PyStr} {r : MetaRecord}
    (hrec : getTableMetadataRecord readOk st tn = some r)
    {cols : List PyStr} (hcoh : regCoherent st.registry tn cols = true) :
    (∀ kv ∈ r.column_comments, kv.1 ∈ cols) ∧
    (∀ kv ∈ r.column_original_names, kv.1 ∈ cols) ∧
    r.sample_questions.length ≤ 4 := by
  unfold getTableMetadataRecord at hrec
  by_cases hg : (!st.metaReady || !readOk) = true
  · rw [if_pos hg] at hrec; exact absurd hrec (by simp)
  · rw [if_neg hg] at hrec
    cases htr : alistGet tn st.registry.tableRows with
    | none => rw [htr] at hrec; exact absurd hrec (by simp)
    | some tc =>
      rw [htr] at hrec
      injection hrec with hr
      subst hr
      simp only [regCoherent, Bool.and_eq_true, List.all_eq_true, decide_eq_true_eq]
        at hcoh
      refine ⟨?_, ?_, ?_⟩
      · intro kv hkv
        rcases mem_foldl_alistInsert
            (fun row : PyStr × PyStr × PyStr × PyStr => row.2.1)
            (fun row : PyStr × PyStr × PyStr × PyStr => row.2.2.1) _ [] kv hkv
          with h | h
        · obtain ⟨row, hrow, hkey⟩ := List.mem_map.mp h
          exact hkey ▸ hcoh.1 row hrow
        · simp at h
      · intro kv hkv
        rcases mem_foldl_alistInsert
            (fun row : PyStr × PyStr × PyStr × PyStr => row.2.1)
            (fun row : PyStr × PyStr × PyStr × PyStr => row.2.2.2) _ [] kv hkv
          with h | h
        · obtain ⟨row, hrow, hkey⟩ := List.mem_map.mp h
          exact hkey ▸ hcoh.1 row hrow
        · simp at h
      · rw [List.length_map, length_sortByOrder]
        exact hcoh.2

theorem resolveColumnsAux_keys (sugg : List (PyStr × NamingColumnPlanL)) :
    ∀ (cols : List PyStr) (idx : Nat) (used : List PyStr),
      (resolveColumnsAux sugg idx used cols).2.1.map (fun kv => kv.1) =
        (resolveColumnsAux sugg idx used cols).1 ∧
      (resolveColumnsAux sugg idx used cols).2.2.map (fun kv => kv.1) =
        (resolveColumnsAux sugg idx used cols).1 := by
  intro cols
  induction cols with
  | nil => intro idx used; exact ⟨rfl, rfl⟩
  | cons c rest ih =>
    intro idx used
    simp only [resolveColumnsAux, List.map_cons]
    constructor
    · rw [(ih (idx + 1) _).1]
    · rw [(ih (idx + 1) _).2]

theorem entryInvariant_scanEntryFor (readOk : Bool) (st : DMState) (tn : PyStr)
    (f : Frame) (hcoh : regCoherent st.registry tn f.header = true) :
    entryInvariant (scanEntryFor readOk st tn f) = true := by
  unfold scanEntryFor
  cases hrec : getTableMetadataRecord readOk st tn with
  | none =>
    simp only [entryInvariant, Bool.and_eq_true, List.all_eq_true, decide_eq_true_eq]
    refine ⟨⟨?_, ?_⟩, by simp⟩ <;>
      · intro kv hkv
        obtain ⟨c, hc, rfl⟩ := List.mem_map.mp hkv
        exact hc
  | some r =>
    obtain ⟨h1, h2, h3⟩ := metaRecord_spec hrec hcoh
    simp only [entryInvariant, Bool.and_eq_true, List.all_eq_true, decide_eq_true_eq]
    exact ⟨⟨h1, h2⟩, h3⟩

theorem getTableInfo_entry_invariant (readOk : Bool) (st : DMState) (tn : PyStr)
    (entry : TableMetadataDict) (hentry : alistGet tn st.metadata = some entry)
    (hpre : entryInvariant entry = true)
    (hcoh : regCoherent st.registry tn entry.columns = true) :
    ∀ e2, (getTableInfo readOk st tn).2 = some e2 → entryInvariant e2 = true := by
  intro e2 he2
  unfold getTableInfo at he2
  rw [hentry] at he2
  cases hrec : getTableMetadataRecord readOk st tn with
  | none =>
    rw [hrec] at he2
    have : entry = e2 := by simpa using he2
    exact this ▸ hpre
  | some r =>
    rw [hrec] at he2
    obtain ⟨h1, h2, h3⟩ := metaRecord_spec hrec hcoh
    have he3 : (⟨r.table_comment_cn, entry.description, entry.columns, entry.rows,
        entry.source, r.table_comment_cn, r.column_comments, r.column_original_names,
        r.sample_questions⟩ : TableMetadataDict) = e2 := by
      simpa using he2
    subst he3
    simp only [entryInvariant, Bool.and_eq_true, List.all_eq_true, decide_eq_true_eq]
    exact ⟨⟨h1, h2⟩, h3⟩

theorem scanEntryFor_congr (readOk : Bool) {acc st : DMState}
    (h1 : acc.registry = st.registry) (h2 : acc.metaReady = st.metaReady)
    (tn : PyStr) (f : Frame) :
    scanEntryFor readOk acc tn f = scanEntryFor readOk st tn f := by
  unfold scanEntryFor getTableMetadataRecord
  rw [h1, h2]

theorem scan_fold_invariant (env : ScanEnv) (st : DMState)
    (hcoh : ∀ tf ∈ st.physical, regCoherent st.registry tf.1 tf.2.header = true) :
    ∀ (xs : List (PyStr × Frame)) (acc : DMState),
      acc.registry = st.registry → acc.metaReady = st.metaReady →
      (∀ tf ∈ xs, tf ∈ st.physical) →
      ∀ tn e,
        alistGet tn ((xs.foldl (fun acc tf =>
          (⟨acc.dataCache,
            alistInsert tf.1 (scanEntryFor env.readOk acc tf.1 tf.2) acc.metadata,
            acc.physical, acc.registry, acc.metaReady⟩ : DMState)) acc)).metadata =
          some e →
        alistGet tn acc.metadata = some e ∨ entryInvariant e = true := by
  intro xs
  induction xs with
  | nil => intro acc _ _ _ tn e h; exact Or.inl h
  | cons tf rest ih =>
    intro acc hreg hmeta hsub tn e h
    rw [List.foldl_cons] at h
    set acc2 : DMState := ⟨acc.dataCache,
      alistInsert tf.1 (scanEntryFor env.readOk acc tf.1 tf.2) acc.metadata,
      acc.physical, acc.registry, acc.metaReady⟩ with hacc2
    rcases ih acc2 hreg hmeta (fun tf2 h2 => hsub tf2 (List.mem_cons_of_mem _ h2)) tn e h
      with h | h
    · by_cases htn : tn = tf.1
      · subst htn
        rw [show acc2.metadata =
            alistInsert tf.1 (scanEntryFor env.readOk acc tf.1 tf.2) acc.metadata from rfl,
          alistGet_insert_self] at h
        right
        have hc := scanEntryFor_congr env.readOk hreg hmeta tf.1 tf.2
        have he : e = scanEntryFor env.readOk st tf.1 tf.2 := by
          rw [← hc]
          exact (Option.some.inj h).symm
        rw [he]
        exact entryInvariant_scanEntryFor env.readOk st tf.1 tf.2
          (hcoh tf (hsub tf (List.mem_cons_self ..)))
      · rw [show acc2.metadata =
            alistInsert tf.1 (scanEntryFor env.readOk acc tf.1 tf.2) acc.metadata from rfl,
          alistGet_insert_ne _ htn] at h
        exact Or.inl h
    · exact Or.inr h

/-- **C9, amended.**  Successful ingestion always installs an entry
satisfying the invariant.  The startup scan and the table-detail
reconciliation install invariant-satisfying entries provided the
registry rows they read are coherent with the live columns (column
rows name live columns, at most 4 question rows) — which the
counterexample shows is a genuine proviso: the code copies registry
maps wholesale without filtering them against `column_names`
(data_manager.py:135-203, 373-400, 835-845). -/
theorem catalog_entry_invariant_amended :
    (∀ (env : ImportEnv) (st : DMState) (fileType : PyStr) (filename : Option PyStr)
      (df : Frame) (sugg : List (PyStr × NamingColumnPlanL)),
      env.engineReady = true →
      (fileType = "csv".data ∨ fileType ∈ supportedExcelTypes) →
      env.parseResult = .ok df →
      df.emptyFrame = false →
      buildSuggestions (generateNamingPlan env.llmConfigured env.llmRaw df.header) =
        .ok sugg →
      env.writeErr = none →
      ∀ tn e, (importUploadedFile env st fileType filename).2.tableName? = some tn →
        alistGet tn (importUploadedFile env st fileType filename).1.metadata = some e →
        entryInvariant e = true) ∧
    (∀ (readOk : Bool) (st : DMState) (tn : PyStr) (entry : TableMetadataDict),
      alistGet tn st.metadata = some entry →
      entryInvariant entry = true →
      regCoherent st.registry tn entry.columns = true →
      ∀ e2, (getTableInfo readOk st tn).2 = some e2 → entryInvariant e2 = true) ∧
    (∀ (env : ScanEnv) (st : DMState),
      (∀ tf ∈ st.physical, regCoherent st.registry tf.1 tf.2.header = true) →
      ∀ tn e, alistGet tn (scanDatabaseTables env st).metadata = some e →
        alistGet tn st.metadata = some e ∨ entryInvariant e = true) := by
  refine ⟨?_, getTableInfo_entry_invariant, ?_⟩
  · intro env st fileType filename df sugg hready hft hparse hne hsugg hwrite tn e htn he
    rw [importUploadedFile_success_eq env st fileType filename df hready hft hparse hne,
      importCore_success_eq env st df filename sugg hsugg hwrite] at htn he
    have htn2 : tn = generateUniqueTableName
        (alistKeys st.metadata ++ alistKeys st.physical)
        (importBaseName (generateNamingPlan env.llmConfigured env.llmRaw df.header)
          (importSafeFilename filename)) := by
      simpa [ImportResult.tableName?] using htn.symm
    subst htn2
    rw [saveTableMetadata_metadata, alistGet_insert_self] at he
    have he2 := (Option.some.inj he).symm
    rw [he2]
    simp only [entryInvariant, Bool.and_eq_true, List.all_eq_true, decide_eq_true_eq]
    obtain ⟨hk1, hk2⟩ := resolveColumnsAux_keys sugg df.header 0 []
    refine ⟨⟨?_, ?_⟩, ?_⟩
    · intro kv hkv
      have : kv.1 ∈ (resolveColumns sugg df.header).2.1.map (fun kv => kv.1) :=
        List.mem_map.mpr ⟨kv, hkv, rfl⟩
      rw [show (resolveColumns sugg df.header).2.1 =
          (resolveColumnsAux sugg 0 [] df.header).2.1 from rfl, hk1] at this
      exact this
    · intro kv hkv
      have : kv.1 ∈ (resolveColumns sugg df.header).2.2.map (fun kv => kv.1) :=
        List.mem_map.mpr ⟨kv, hkv, rfl⟩
      rw [show (resolveColumns sugg df.header).2.2 =
          (resolveColumnsAux sugg 0 [] df.header).2.2 from rfl, hk2] at this
      exact this
    · exact le_of_eq (computeSampleQuestions_length _ _ _)
  · intro env st hcoh tn e h
    unfold scanDatabaseTables at h
    cases heng : env.engineOk with
    | false => rw [heng] at h; simp at h; exact Or.inl h
    | true =>
      rw [heng] at h
      simp only [Bool.not_true, Bool.false_eq_true, if_false] at h
      exact scan_fold_invariant env st hcoh st.physical st rfl rfl (fun _ h2 => h2) tn e h

def wEntryC9 : TableMetadataDict :=
  ⟨"t".data, "d".data, ["a".data], 1, "db".data, "t".data,
    [("a".data, "ca".data)], [("a".data, "oa".data)], ["q".data]⟩

def wFrameC9 : Frame := ⟨["a".data], [[.vStr "1".data]]⟩

def wStC9 : DMState :=
  ⟨[], [("t".data, wEntryC9)], [("p".data, wFrameC9)], ⟨[], [], []⟩, true⟩

/-- Concrete corroboration of the amended catalog invariant: on a state
holding one invariant-satisfying entry and one physical table with an
empty registry, `get_table_info` returns an invariant-satisfying entry,
and the scanner installs an entry that is new and invariant-satisfying. -/
theorem catalog_entry_invariant_amended_witness :
    entryInvariant wEntryC9 = true ∧
    (alistGet "p".data wStC9.metadata =
        some (scanEntryFor true wStC9 "p".data wFrameC9) ∨
      entryInvariant (scanEntryFor true wStC9 "p".data wFrameC9) = true) :=
  ⟨catalog_entry_invariant_amended.2.1 true wStC9 "t".data wEntryC9 (by decide)
      (by decide) (by decide) wEntryC9 (by decide),
    catalog_entry_invariant_amended.2.2 ⟨true, true⟩ wStC9 (by decide)
      "p".data (scanEntryFor true wStC9 "p".data wFrameC9) (by decide)⟩

end NL2SQL
